import Mathlib

/-!
# Verification of the manticore signed-manifest container subsystem

A shallow embedding of `src/manifest/container.rs` (the `Container` parser
and the `Containerizer` builder) and of the minimal-atom path of the
test-only CBOR emitter in `src/cert/cbor_macro.rs`, over byte buffers
modelled as `List Nat` (each entry one byte).

External collaborators that are declared but not defined in the sources at
hand — the byte cursor, the manifest type registry and the RSA
signer/verifier capabilities — are modelled from the specification's
description of their interfaces; each such definition carries a doc
comment starting with `Modelled from the spec:`.

Rust `usize` arithmetic is `Nat` with explicit bounds where overflow
matters; a Rust panic (out-of-bounds slice index) is an explicit
`ParseResult.panic` outcome.
-/

namespace Manticore

/-- Errors surfaced by the manifest layer (`manticore::manifest::Error`,
as used by `container.rs`). -/
inductive Error where
  | Unaligned
  | OutOfRange
  | SignatureFailure
  deriving DecidableEq, Repr

/-- Modelled from the spec: the cursor's error type; the only failure the
bounded byte cursor reports is exhaustion of the caller-provided buffer. -/
inductive IoError where
  | BufferExhausted
  deriving DecidableEq, Repr

/-- Modelled from the spec: `BufferExhausted` (and every cursor error) is
re-surfaced as `OutOfRange` at the container boundary (spec section 7);
this is the `From<io::Error> for manifest::Error` conversion invoked by
the `?` operator in `container.rs`. -/
def Error.ofIo : IoError → Error
  | .BufferExhausted => .OutOfRange

/-- Modelled from the spec: the manifest-type registry. The sources at
hand declare `ManifestType` elsewhere; the spec records one known tag,
FPM, with wire value `0xDA0E`. -/
inductive ManifestType where
  | Fpm
  deriving DecidableEq, Repr

/-- Modelled from the spec: `to_wire(tag) → u16`. -/
def ManifestType.to_wire_value : ManifestType → Nat
  | .Fpm => 0xda0e

/-- Modelled from the spec: `from_wire(u16) → Option<tag>`, fallible in
the wire-to-tag direction. -/
def ManifestType.from_wire_value (w : Nat) : Option ManifestType :=
  if w = 0xda0e then some .Fpm else none

/-- Manifest metadata (`Metadata` in `container.rs`): the monotonic
version id, a `u32` on the wire. -/
structure Metadata where
  version_id : Nat
  deriving DecidableEq, Repr

/-- A parsed, verified manifest container (`Container<'m>` in
`container.rs`); the body borrows into the parsed buffer, modelled here
as the list of body bytes. -/
structure Container where
  manifest_type : ManifestType
  metadata : Metadata
  body : List Nat
  deriving DecidableEq, Repr

/-- `LEN_OFFSET` in `container.rs`. -/
def LEN_OFFSET : Nat := 0
/-- `TYPE_OFFSET` in `container.rs`. -/
def TYPE_OFFSET : Nat := 2
/-- `ID_OFFSET` in `container.rs`. -/
def ID_OFFSET : Nat := 4
/-- `SIG_LEN_OFFSET` in `container.rs`. -/
def SIG_LEN_OFFSET : Nat := 8

/-- `HEADER_LEN` in `container.rs`: two halves, a word, another half, and
two bytes of padding. -/
def HEADER_LEN : Nat := 2 + 2 + 4 + 2 + 2

/-- Little-endian `u16` read at byte offset `off` (the `read_le::<u16>()`
calls in `parse_and_verify`; the preceding `HEADER_LEN > buf.len()` check
keeps every header read in bounds, so the out-of-bounds default is never
reached on any path the code takes). -/
def readLeU16 (buf : List Nat) (off : Nat) : Nat :=
  buf.getD off 0 + 256 * buf.getD (off + 1) 0

/-- Little-endian `u32` read at byte offset `off` (the `read_le::<u32>()`
call in `parse_and_verify`). -/
def readLeU32 (buf : List Nat) (off : Nat) : Nat :=
  buf.getD off 0 + 256 * buf.getD (off + 1) 0
    + 65536 * buf.getD (off + 2) 0 + 16777216 * buf.getD (off + 3) 0

/-- Outcome of `parse_and_verify`: a Rust panic (an out-of-bounds slice
index), an `Err`, or an `Ok` container view. -/
inductive ParseResult where
  | panic
  | err : Error → ParseResult
  | ok : Container → ParseResult
  deriving DecidableEq, Repr

/-- `Container::parse_and_verify` from `container.rs`.

`aligned` abstracts the `buf.as_ptr().align_offset(4) != 0` test (memory
addresses are outside the byte-list model); `verify sig msg` abstracts
`rsa.verify_signature(sig, signed)` returning `Ok` (the engine is a
pluggable capability).

The Rust expression `&buf[..len][HEADER_LEN..]` panics when
`len < HEADER_LEN` (a range start beyond the slice's length), which is
the `.panic` branch below; every other slice index is guarded by the
checks that precede it. -/
def parse_and_verify (aligned : Bool) (buf : List Nat)
    (verify : List Nat → List Nat → Bool) : ParseResult :=
  if ¬ aligned then .err .Unaligned
  else if HEADER_LEN > buf.length then .err .OutOfRange
  else
    let len := readLeU16 buf LEN_OFFSET
    let magic := readLeU16 buf TYPE_OFFSET
    let id := readLeU32 buf ID_OFFSET
    let sig_len := readLeU16 buf SIG_LEN_OFFSET
    if len > buf.length then .err .OutOfRange
    else if HEADER_LEN > len then .panic
    else
      let rest := (buf.take len).drop HEADER_LEN
      if sig_len > rest.length then .err .OutOfRange
      else
        let body_len := rest.length - sig_len
        let body := rest.take body_len
        let sig := rest.drop body_len
        if sig_len > len then .err .OutOfRange
        else
          let signed := buf.take (len - sig_len)
          if verify sig signed then
            match ManifestType.from_wire_value magic with
            | some t => .ok ⟨t, ⟨id⟩, body⟩
            | none => .err .OutOfRange
          else .err .SignatureFailure

/-- `Container::can_replace` from `container.rs`: same type, and a
greater-or-equal version id. -/
def Container.can_replace (self other : Container) : Bool :=
  self.manifest_type == other.manifest_type
    && self.metadata.version_id ≥ other.metadata.version_id

/-- The little-endian byte encoding of a `u16` value. -/
def le16 (v : Nat) : List Nat :=
  [v % 256, v / 256 % 256]

/-- The little-endian byte encoding of a `u32` value. -/
def le32 (v : Nat) : List Nat :=
  [v % 256, v / 256 % 256, v / 65536 % 256, v / 16777216 % 256]

/-- In-place overwrite of `bs.length` bytes of `buf` starting at offset
`off` (the effect of a cursor write into its caller-owned buffer; the
cursor's bounds guard ensures `off + bs.length ≤ buf.length` whenever
this is reached). -/
def setBytes (buf : List Nat) (off : Nat) (bs : List Nat) : List Nat :=
  buf.take off ++ bs ++ buf.drop (off + bs.length)

/-- Modelled from the spec: the bounded byte cursor (`io::Cursor`), a
bounded writer over a caller-owned byte slice with an absolute write
position ("consumed length" mark). -/
structure Cursor where
  buf : List Nat
  pos : Nat
  deriving DecidableEq, Repr

/-- Modelled from the spec: absolute seek; the position may sit anywhere
inside the buffer, including one past the end. -/
def Cursor.seek (c : Cursor) (n : Nat) : Except IoError Cursor :=
  if n ≤ c.buf.length then .ok { c with pos := n }
  else .error .BufferExhausted

/-- Modelled from the spec: raw byte write at the current position;
fails with `BufferExhausted` rather than writing past the caller's
buffer. -/
def Cursor.write_bytes (c : Cursor) (bs : List Nat) : Except IoError Cursor :=
  if c.pos + bs.length ≤ c.buf.length then
    .ok { buf := setBytes c.buf c.pos bs, pos := c.pos + bs.length }
  else .error .BufferExhausted

/-- Modelled from the spec: the "consumed length" mark, i.e. the current
write position. -/
def Cursor.consumed_len (c : Cursor) : Nat := c.pos

/-- Modelled from the spec: `consume_with_prior(n)` consumes `n` further
bytes and splits off `(message, sig)` where `message` is everything
consumed before this call and `sig` is the `n` newly consumed bytes that
follow it contiguously. -/
def Cursor.consume_with_prior (c : Cursor) (n : Nat) :
    Except IoError (List Nat × List Nat × Cursor) :=
  if c.pos + n ≤ c.buf.length then
    .ok (c.buf.take c.pos, (c.buf.drop c.pos).take n, { c with pos := c.pos + n })
  else .error .BufferExhausted

/-- Modelled from the spec: all bytes consumed so far, i.e. the
`[0, pos)` prefix of the buffer. -/
def Cursor.take_consumed_bytes (c : Cursor) : List Nat :=
  c.buf.take c.pos

/-- Lifts a cursor result into the manifest layer, converting the error
as the `?` operator in `container.rs` does. -/
def liftIo {α : Type} : Except IoError α → Except Error α
  | .ok a => .ok a
  | .error e => .error (Error.ofIo e)

/-- Modelled from the spec: a deterministic signer capability
(`rsa::Signer`): a fixed public-key byte length `pubLen`; `sigOf m` the
signature it produces for message `m` (a function of the message only);
`signFails m` whether its `sign` entry point reports an error on `m`. -/
structure Signer where
  pubLen : Nat
  sigOf : List Nat → List Nat
  signFails : List Nat → Bool

/-- Modelled from the spec: `signer.sign(msg, sig_out)` writes exactly
`sig_out.len()` signature bytes or reports an error; an error is also
reported when the signature does not fit the output slot exactly. -/
def Signer.sign (s : Signer) (msg sigOut : List Nat) : Except Unit (List Nat) :=
  if s.signFails msg ∨ (s.sigOf msg).length ≠ sigOut.length then .error ()
  else .ok (s.sigOf msg)

/-- `usize::MAX` on the 64-bit targets manticore compiles for; the bound
`checked_add` tests against. -/
def USIZE_MAX : Nat := 2 ^ 64 - 1

/-- The incremental container builder (`Containerizer<'m>` in
`container.rs`): a cursor over the caller's output buffer plus the two
has-flags. -/
structure Containerizer where
  cursor : Cursor
  has_type : Bool
  has_metadata : Bool
  deriving DecidableEq, Repr

/-- `Containerizer::new` from `container.rs`: build a cursor over `out`
and seek it to `HEADER_LEN`; the seek fails exactly when `out` cannot
hold a header. -/
def Containerizer.new (out : List Nat) : Except Error Containerizer :=
  match liftIo ((Cursor.mk out 0).seek HEADER_LEN) with
  | .error e => .error e
  | .ok cursor => .ok ⟨cursor, false, false⟩

/-- `Containerizer::with_type` from `container.rs`: save the mark, seek
to `TYPE_OFFSET`, write the wire value little-endian, seek back, set the
has-type flag. -/
def Containerizer.with_type (c : Containerizer) (manifest_type : ManifestType) :
    Except Error Containerizer :=
  let mark := c.cursor.consumed_len
  match liftIo (c.cursor.seek TYPE_OFFSET) with
  | .error e => .error e
  | .ok cur =>
  match liftIo (cur.write_bytes (le16 manifest_type.to_wire_value)) with
  | .error e => .error e
  | .ok cur =>
  match liftIo (cur.seek mark) with
  | .error e => .error e
  | .ok cur => .ok { c with cursor := cur, has_type := true }

/-- `Containerizer::with_metadata` from `container.rs`: save the mark,
seek to `ID_OFFSET`, write the version id little-endian, seek back, set
the has-metadata flag. -/
def Containerizer.with_metadata (c : Containerizer) (metadata : Metadata) :
    Except Error Containerizer :=
  let mark := c.cursor.consumed_len
  match liftIo (c.cursor.seek ID_OFFSET) with
  | .error e => .error e
  | .ok cur =>
  match liftIo (cur.write_bytes (le32 metadata.version_id)) with
  | .error e => .error e
  | .ok cur =>
  match liftIo (cur.seek mark) with
  | .error e => .error e
  | .ok cur => .ok { c with cursor := cur, has_metadata := true }

/-- The `Write` impl for `Containerizer` from `container.rs`: forward to
the cursor. -/
def Containerizer.write_bytes (c : Containerizer) (bs : List Nat) :
    Except IoError Containerizer :=
  match c.cursor.write_bytes bs with
  | .error e => .error e
  | .ok cur => .ok { c with cursor := cur }

/-- `Containerizer::sign` from `container.rs`, with the state of the
caller's output buffer carried alongside the result (in Rust the buffer
outlives the consumed builder, so a failed `sign` still leaves its bytes
observable to the caller).

Steps, in source order: require both has-flags; `sig_len` from the
signer; `total_len = consumed_len + sig_len` with `checked_add`
(overflow becomes `BufferExhausted` and then `OutOfRange`); require both
lengths to fit a `u16`; patch `total_len` at offset 0, `sig_len` at
offset 8 and the fixed `0xFFFF` padding right after it; seek back to the
mark; split off `(message, sig)`; delegate to the signer, collapsing its
error to `SignatureFailure`; return the consumed prefix. -/
def Containerizer.signFull (c : Containerizer) (s : Signer) :
    Except Error (List Nat) × List Nat :=
  if ¬ (c.has_type && c.has_metadata) then (.error .OutOfRange, c.cursor.buf)
  else
    let sig_len := s.pubLen
    if c.cursor.consumed_len + sig_len > USIZE_MAX then
      (.error (Error.ofIo .BufferExhausted), c.cursor.buf)
    else
      let total_len := c.cursor.consumed_len + sig_len
      if total_len > 0xffff ∨ sig_len > 0xffff then
        (.error .OutOfRange, c.cursor.buf)
      else
        let mark := c.cursor.consumed_len
        match c.cursor.seek LEN_OFFSET with
        | .error e => (.error (Error.ofIo e), c.cursor.buf)
        | .ok cur =>
        match cur.write_bytes (le16 total_len) with
        | .error e => (.error (Error.ofIo e), cur.buf)
        | .ok cur =>
        match cur.seek SIG_LEN_OFFSET with
        | .error e => (.error (Error.ofIo e), cur.buf)
        | .ok cur =>
        match cur.write_bytes (le16 sig_len) with
        | .error e => (.error (Error.ofIo e), cur.buf)
        | .ok cur =>
        match cur.write_bytes (le16 0xffff) with
        | .error e => (.error (Error.ofIo e), cur.buf)
        | .ok cur =>
        match cur.seek mark with
        | .error e => (.error (Error.ofIo e), cur.buf)
        | .ok cur =>
        match cur.consume_with_prior sig_len with
        | .error e => (.error (Error.ofIo e), cur.buf)
        | .ok (message, sig, cur) =>
        match s.sign message sig with
        | .error _ => (.error .SignatureFailure, cur.buf)
        | .ok sigBytes =>
          let cur : Cursor := { cur with buf := setBytes cur.buf mark sigBytes }
          (.ok cur.take_consumed_bytes, cur.buf)

/-- The result a caller of `Containerizer::sign` sees: the first
component of `signFull`. -/
def Containerizer.sign (c : Containerizer) (s : Signer) :
    Except Error (List Nat) :=
  (c.signFull s).1

/-- The big-endian byte encoding of a `u16` (`u16::to_be_bytes` in
`cbor_macro.rs`). -/
def be2 (n : Nat) : List Nat :=
  [n / 256 % 256, n % 256]

/-- The big-endian byte encoding of a `u32` (`u32::to_be_bytes` in
`cbor_macro.rs`). -/
def be4 (n : Nat) : List Nat :=
  [n / 16777216 % 256, n / 65536 % 256, n / 256 % 256, n % 256]

/-- The big-endian byte encoding of a `u64` (`u64::to_be_bytes` in
`cbor_macro.rs`). -/
def be8 (n : Nat) : List Nat :=
  [n / 2 ^ 56 % 256, n / 2 ^ 48 % 256, n / 2 ^ 40 % 256, n / 2 ^ 32 % 256,
    n / 2 ^ 24 % 256, n / 2 ^ 16 % 256, n / 2 ^ 8 % 256, n % 256]

/-- The bytes the `raw_cbor!` macro (`cbor_macro.rs`) appends for one
atom `ty:arg` with no forced long-form width: the `assert!(ty < 8)`
panic is `none`; otherwise the head byte carries `ty << 5` or-ed with
the minimal size class for `arg`, followed by that class's big-endian
argument bytes (the `else` branch of the atom rule, whose
`u8/u16/u32::try_from` ladder picks the first width that fits). -/
def cborAtom (ty arg : Nat) : Option (List Nat) :=
  if ty < 8 then
    let t := ty * 32
    some
      (if arg ≤ 255 then
        if arg < 24 then [t + arg] else [t + 24, arg]
      else if arg ≤ 65535 then (t + 25) :: be2 arg
      else if arg ≤ 4294967295 then (t + 26) :: be4 arg
      else (t + 27) :: be8 arg)
  else none

/-! ## Claim theorems -/

/-- C1: `parse_and_verify` is claimed total (bounds-safe) on
attacker-controlled input, returning `Err(OutOfRange)` whenever the
decoded `sig_len` exceeds `total_len − HEADER_LEN` under saturating
subtraction, in particular on every input whose decoded `total_len` is
below `HEADER_LEN`. The code disagrees: on the 4-byte-aligned 12-byte
input below (decoded `total_len = 0`, `sig_len = 1`, so the claim
demands `Err(OutOfRange)`), the expression `&buf[..len][HEADER_LEN..]`
takes a range starting at 12 in a slice of length 0 and panics — the
very panic the code's own comment asserts cannot happen. -/
theorem parse_panics_when_total_len_below_header :
    parse_and_verify true [0, 0, 0, 0, 0, 0, 0, 0, 1, 0, 0, 0]
      (fun _ _ => true) = .panic := by
  rfl

/-- C4: `a.can_replace b` is true exactly when the manifest types agree
and `a`'s version id is greater than or equal to `b`'s; in particular
equal ids of the same type are replaceable, a strictly lower id of the
same type is rejected, and distinct types are never replaceable. -/
theorem can_replace_iff (a b : Container) :
    a.can_replace b = true ↔
      (a.manifest_type = b.manifest_type ∧
        b.metadata.version_id ≤ a.metadata.version_id) := by
  simp [Container.can_replace, ge_iff_le]

/-- C9: with no forced width, the CBOR atom emitter picks the smallest
size class that fits the argument: the argument packed into the head
byte below 24, then 1, 2, 4 or 8 big-endian bytes behind the size-class
head `(ty << 5) | (24..27)`, switching classes exactly at `0xFF`,
`0xFFFF` and `0xFFFFFFFF`. -/
theorem cborAtom_minimal (m n : Nat) (hm : m < 8) (_hn : n < 2 ^ 64) :
    (n < 24 → cborAtom m n = some [m * 32 + n]) ∧
    (24 ≤ n → n ≤ 0xff → cborAtom m n = some [m * 32 + 24, n]) ∧
    (0xff < n → n ≤ 0xffff → cborAtom m n = some ((m * 32 + 25) :: be2 n)) ∧
    (0xffff < n → n ≤ 0xffffffff → cborAtom m n = some ((m * 32 + 26) :: be4 n)) ∧
    (0xffffffff < n → cborAtom m n = some ((m * 32 + 27) :: be8 n)) := by
  refine ⟨fun h => ?_, fun h h' => ?_, fun h h' => ?_, fun h h' => ?_, fun h => ?_⟩ <;>
    simp only [cborAtom, if_pos hm]
  · rw [if_pos (by omega : n ≤ 255), if_pos h]
  · rw [if_pos (by omega : n ≤ 255), if_neg (by omega)]
  · rw [if_neg (by omega), if_pos h']
  · rw [if_neg (by omega), if_neg (by omega), if_pos h']
  · rw [if_neg (by omega), if_neg (by omega), if_neg (by omega)]

/-- Instantiation of `cborAtom_minimal` at the two-byte class boundary
`n = 256`. -/
theorem cborAtom_minimal_witness :
    cborAtom 1 256 = some ((1 * 32 + 25) :: be2 256) :=
  (cborAtom_minimal 1 256 (by norm_num) (by norm_num)).2.2.1 (by norm_num)
    (by norm_num)

/-- C2: every successful `parse_and_verify` returns the view whose body
is exactly `buf[HEADER_LEN .. total_len − sig_len]` (hence of length
`total_len − HEADER_LEN − sig_len`), whose version id is the
little-endian `u32` at offset 4, whose manifest type is the decoding of
the magic at offset 2, and the engine accepted, as the signed message,
exactly the prefix `buf[.. total_len − sig_len]`. -/
theorem parse_ok_view (aligned : Bool) (buf : List Nat)
    (verify : List Nat → List Nat → Bool) (c : Container)
    (h : parse_and_verify aligned buf verify = .ok c) :
    c.body =
        (buf.take (readLeU16 buf LEN_OFFSET - readLeU16 buf SIG_LEN_OFFSET)).drop
          HEADER_LEN ∧
    c.body.length =
        readLeU16 buf LEN_OFFSET - HEADER_LEN - readLeU16 buf SIG_LEN_OFFSET ∧
    c.metadata.version_id = readLeU32 buf ID_OFFSET ∧
    ManifestType.from_wire_value (readLeU16 buf TYPE_OFFSET) =
        some c.manifest_type ∧
    verify
        (((buf.take (readLeU16 buf LEN_OFFSET)).drop HEADER_LEN).drop
          (readLeU16 buf LEN_OFFSET - HEADER_LEN - readLeU16 buf SIG_LEN_OFFSET))
        (buf.take (readLeU16 buf LEN_OFFSET - readLeU16 buf SIG_LEN_OFFSET)) =
      true := by
  simp only [parse_and_verify] at h
  set len := readLeU16 buf LEN_OFFSET with hlen
  set sig_len := readLeU16 buf SIG_LEN_OFFSET with hsig
  split at h
  · exact absurd h (by simp)
  split at h
  · exact absurd h (by simp)
  split at h
  · exact absurd h (by simp)
  split at h
  · exact absurd h (by simp)
  split at h
  · exact absurd h (by simp)
  split at h
  · exact absurd h (by simp)
  split at h
  case _ hbuf hle hhd hrest hsl hver =>
    split at h
    case _ t hwire =>
      rw [ParseResult.ok.injEq] at h
      subst h
      push_neg at hbuf hle hhd hrest hsl
      have hrlen : ((buf.take len).drop HEADER_LEN).length = len - HEADER_LEN := by
        simp only [List.length_drop, List.length_take]
        omega
      refine ⟨?_, ?_, rfl, hwire, ?_⟩
      · rw [hrlen, List.drop_take, List.drop_take, List.take_take,
          min_eq_left (by omega)]
        show (buf.drop HEADER_LEN).take (len - HEADER_LEN - sig_len) =
          (buf.drop HEADER_LEN).take (len - sig_len - HEADER_LEN)
        congr 1
        omega
      · simp only [List.length_take, List.length_drop, hrlen]
        omega
      · rw [hrlen] at hver
        exact hver
    · exact absurd h (by simp)
  · exact absurd h (by simp)

/-- Instantiation of `parse_ok_view` on a minimal valid container
(total length 12, empty body, empty signature, id `0x155AA`). -/
theorem parse_ok_view_witness :
    (⟨.Fpm, ⟨87466⟩, []⟩ : Container).metadata.version_id =
      readLeU32 [12, 0, 14, 218, 170, 85, 1, 0, 0, 0, 255, 255] ID_OFFSET :=
  (parse_ok_view true [12, 0, 14, 218, 170, 85, 1, 0, 0, 0, 255, 255]
      (fun _ _ => true) ⟨.Fpm, ⟨87466⟩, []⟩ (by decide)).2.2.1

/-- The signature slice `parse_and_verify` carves out of `buf`
(`rest.split_at(body_len).1` in `container.rs`, as a function of the
input). -/
def parsedSig (buf : List Nat) : List Nat :=
  ((buf.take (readLeU16 buf LEN_OFFSET)).drop HEADER_LEN).drop
    (readLeU16 buf LEN_OFFSET - HEADER_LEN - readLeU16 buf SIG_LEN_OFFSET)

/-- The signed prefix `parse_and_verify` hands to the engine
(`&buf[..signed_len]` in `container.rs`, as a function of the input). -/
def parsedSigned (buf : List Nat) : List Nat :=
  buf.take (readLeU16 buf LEN_OFFSET - readLeU16 buf SIG_LEN_OFFSET)

/-- Once the alignment and every length check have passed, what remains
of `parse_and_verify` is the verify call followed by the magic
decoding. -/
theorem parse_checks_eval (buf : List Nat)
    (verify : List Nat → List Nat → Bool)
    (hbuf : HEADER_LEN ≤ buf.length)
    (hle : readLeU16 buf LEN_OFFSET ≤ buf.length)
    (hhd : HEADER_LEN ≤ readLeU16 buf LEN_OFFSET)
    (hsl : readLeU16 buf SIG_LEN_OFFSET ≤ readLeU16 buf LEN_OFFSET - HEADER_LEN) :
    parse_and_verify true buf verify =
      if verify (parsedSig buf) (parsedSigned buf) then
        match ManifestType.from_wire_value (readLeU16 buf TYPE_OFFSET) with
        | some t =>
            .ok ⟨t, ⟨readLeU32 buf ID_OFFSET⟩,
              ((buf.take (readLeU16 buf LEN_OFFSET)).drop HEADER_LEN).take
                (readLeU16 buf LEN_OFFSET - HEADER_LEN -
                  readLeU16 buf SIG_LEN_OFFSET)⟩
        | none => .err .OutOfRange
      else .err .SignatureFailure := by
  have hrlen : ((buf.take (readLeU16 buf LEN_OFFSET)).drop HEADER_LEN).length
      = readLeU16 buf LEN_OFFSET - HEADER_LEN := by
    simp only [List.length_drop, List.length_take]
    omega
  simp only [parse_and_verify, parsedSig, parsedSigned, hrlen]
  rw [if_neg (by simp), if_neg (by omega), if_neg (by omega), if_neg (by omega),
    if_neg (by omega), if_neg (by omega)]

/-- C6: the magic is decoded only after signature verification. For
every input that passes the alignment and length checks but whose
signature the engine rejects, the result is `SignatureFailure` — even
when the magic is unknown; and an `OutOfRange` from such an input can
only arise after the signature over the prefix verified (unknown-magic
rejection happens only on already-authenticated bytes). -/
theorem parse_verifies_before_magic (buf : List Nat)
    (verify : List Nat → List Nat → Bool)
    (hbuf : HEADER_LEN ≤ buf.length)
    (hle : readLeU16 buf LEN_OFFSET ≤ buf.length)
    (hhd : HEADER_LEN ≤ readLeU16 buf LEN_OFFSET)
    (hsl : readLeU16 buf SIG_LEN_OFFSET ≤ readLeU16 buf LEN_OFFSET - HEADER_LEN) :
    (verify (parsedSig buf) (parsedSigned buf) = false →
      parse_and_verify true buf verify = .err .SignatureFailure) ∧
    (parse_and_verify true buf verify = .err .OutOfRange →
      verify (parsedSig buf) (parsedSigned buf) = true) := by
  rw [parse_checks_eval buf verify hbuf hle hhd hsl]
  constructor
  · intro hv
    rw [if_neg (by simp [hv])]
  · intro hres
    by_cases hv : verify (parsedSig buf) (parsedSigned buf) = true
    · exact hv
    · rw [if_neg (by simpa using hv)] at hres
      exact absurd hres (by simp)

/-- Instantiation of `parse_verifies_before_magic`: a bounds-clean
container whose magic (`0x0000`) is unknown and whose signature the
engine rejects still fails with `SignatureFailure`, not `OutOfRange`. -/
theorem parse_verifies_before_magic_witness :
    parse_and_verify true [12, 0, 0, 0, 0, 0, 0, 0, 0, 0, 255, 255]
      (fun _ _ => false) = .err .SignatureFailure :=
  (parse_verifies_before_magic [12, 0, 0, 0, 0, 0, 0, 0, 0, 0, 255, 255]
      (fun _ _ => false) (by decide) (by decide) (by decide) (by decide)).1
    (by decide)

/-- Bytes below an agreed prefix length coincide. -/
theorem getD_eq_of_take_eq {l1 l2 : List Nat} {k : Nat}
    (h : l1.take k = l2.take k) {i : Nat} (hi : i < k) :
    l1.getD i 0 = l2.getD i 0 := by
  rw [List.getD_eq_getElem?_getD, List.getD_eq_getElem?_getD,
    ← List.getElem?_take_of_lt (l := l1) hi,
    ← List.getElem?_take_of_lt (l := l2) hi, h]

/-- A little-endian `u16` read below an agreed prefix coincides. -/
theorem readLeU16_eq_of_take_eq {l1 l2 : List Nat} {k : Nat}
    (h : l1.take k = l2.take k) {off : Nat} (hoff : off + 1 < k) :
    readLeU16 l1 off = readLeU16 l2 off := by
  unfold readLeU16
  rw [getD_eq_of_take_eq h (by omega), getD_eq_of_take_eq h hoff]

/-- A little-endian `u32` read below an agreed prefix coincides. -/
theorem readLeU32_eq_of_take_eq {l1 l2 : List Nat} {k : Nat}
    (h : l1.take k = l2.take k) {off : Nat} (hoff : off + 3 < k) :
    readLeU32 l1 off = readLeU32 l2 off := by
  unfold readLeU32
  rw [getD_eq_of_take_eq h (by omega), getD_eq_of_take_eq h (by omega),
    getD_eq_of_take_eq h (by omega), getD_eq_of_take_eq h hoff]

/-- Agreement on a prefix restricts to agreement on shorter prefixes. -/
theorem take_eq_of_take_eq {l1 l2 : List Nat} {k : Nat}
    (h : l1.take k = l2.take k) {m : Nat} (hm : m ≤ k) :
    l1.take m = l2.take m := by
  calc l1.take m = (l1.take k).take m := by
        rw [List.take_take, min_eq_left hm]
    _ = (l2.take k).take m := by rw [h]
    _ = l2.take m := by rw [List.take_take, min_eq_left hm]

/-- C10 (amended): the outcome of `parse_and_verify` depends only on the
first `max(total_len, 2)` bytes of the input — the claimed `total_len`
prefix enlarged just enough to contain the `total_len` field itself.
For two buffers agreeing on that prefix, with the same alignment and the
same engine behaviour, and both long enough to pass the length checks
the claim assumes, the outcomes are identical (including the degenerate
panic outcome when `total_len < HEADER_LEN`); bytes at or beyond offset
`max(total_len, 2)` never influence the result. -/
theorem parse_depends_only_on_prefix (aligned : Bool) (buf1 buf2 : List Nat)
    (verify : List Nat → List Nat → Bool) (t : Nat)
    (ht : readLeU16 buf1 LEN_OFFSET = t)
    (hagree : buf1.take (max t 2) = buf2.take (max t 2))
    (h1 : max t HEADER_LEN ≤ buf1.length)
    (h2 : max t HEADER_LEN ≤ buf2.length) :
    parse_and_verify aligned buf1 verify = parse_and_verify aligned buf2 verify := by
  have ht2 : readLeU16 buf2 LEN_OFFSET = t := by
    rw [← readLeU16_eq_of_take_eq hagree (by simp only [LEN_OFFSET]; omega), ht]
  have halign : ¬ ¬ True := not_not_intro trivial
  have hb1 : ¬ (HEADER_LEN > buf1.length) := by
    simp only [HEADER_LEN] at h1 ⊢
    omega
  have hb2 : ¬ (HEADER_LEN > buf2.length) := by
    simp only [HEADER_LEN] at h2 ⊢
    omega
  have htb1 : ¬ (t > buf1.length) := by omega
  have htb2 : ¬ (t > buf2.length) := by omega
  cases aligned with
  | false => simp [parse_and_verify]
  | true =>
    rcases Nat.lt_or_ge t HEADER_LEN with hlt | hge
    · simp only [parse_and_verify, ht, ht2]
      rw [if_neg halign, if_neg hb1, if_neg htb1, if_pos hlt,
        if_neg halign, if_neg hb2, if_neg htb2, if_pos hlt]
    · have htake : buf1.take t = buf2.take t := by
        have hmax : max t 2 = t := by
          simp only [HEADER_LEN] at hge
          omega
        rwa [hmax] at hagree
      have h12 : 12 ≤ t := by
        simp only [HEADER_LEN] at hge
        omega
      have hmagic' : readLeU16 buf2 TYPE_OFFSET = readLeU16 buf1 TYPE_OFFSET :=
        (readLeU16_eq_of_take_eq htake (by simp only [TYPE_OFFSET]; omega)).symm
      have hid' : readLeU32 buf2 ID_OFFSET = readLeU32 buf1 ID_OFFSET :=
        (readLeU32_eq_of_take_eq htake (by simp only [ID_OFFSET]; omega)).symm
      have hsig' : readLeU16 buf2 SIG_LEN_OFFSET = readLeU16 buf1 SIG_LEN_OFFSET :=
        (readLeU16_eq_of_take_eq htake (by simp only [SIG_LEN_OFFSET]; omega)).symm
      have htake' : buf2.take t = buf1.take t := htake.symm
      have hsigned' :
          buf2.take (t - readLeU16 buf1 SIG_LEN_OFFSET) =
            buf1.take (t - readLeU16 buf1 SIG_LEN_OFFSET) :=
        take_eq_of_take_eq htake.symm (by omega)
      simp only [parse_and_verify, ht, ht2, hmagic', hid', hsig', htake', hsigned']
      rw [if_neg halign, if_neg hb1, if_neg htb1,
        if_neg halign, if_neg hb2, if_neg htb2]

/-- Instantiation of `parse_depends_only_on_prefix`: a valid 12-byte
container against the same container with a trailing byte appended
beyond `total_len`. -/
theorem parse_depends_only_on_prefix_witness :
    parse_and_verify true [12, 0, 14, 218, 170, 85, 1, 0, 0, 0, 255, 255]
        (fun _ _ => true) =
      parse_and_verify true [12, 0, 14, 218, 170, 85, 1, 0, 0, 0, 255, 255, 99]
        (fun _ _ => true) :=
  parse_depends_only_on_prefix true
    [12, 0, 14, 218, 170, 85, 1, 0, 0, 0, 255, 255]
    [12, 0, 14, 218, 170, 85, 1, 0, 0, 0, 255, 255, 99]
    (fun _ _ => true) 12 (by decide) (by decide) (by decide) (by decide)

/-- Counterexample to C10 as stated: with decoded `total_len = 0` the
two buffers below agree on their first `total_len` (zero) bytes and
both are at least `max(total_len, HEADER_LEN)` long, yet
`parse_and_verify` panics on the first (total_len below the header
length) and succeeds on the second. -/
theorem parse_prefix_claim_counterexample :
    readLeU16 [0, 0, 0, 0, 0, 0, 0, 0, 0, 0, 255, 255] LEN_OFFSET = 0 ∧
    ([0, 0, 0, 0, 0, 0, 0, 0, 0, 0, 255, 255] : List Nat).take 0 =
      ([12, 0, 14, 218, 170, 85, 1, 0, 0, 0, 255, 255] : List Nat).take 0 ∧
    max 0 HEADER_LEN ≤
      ([0, 0, 0, 0, 0, 0, 0, 0, 0, 0, 255, 255] : List Nat).length ∧
    max 0 HEADER_LEN ≤
      ([12, 0, 14, 218, 170, 85, 1, 0, 0, 0, 255, 255] : List Nat).length ∧
    parse_and_verify true [0, 0, 0, 0, 0, 0, 0, 0, 0, 0, 255, 255]
        (fun _ _ => true) ≠
      parse_and_verify true [12, 0, 14, 218, 170, 85, 1, 0, 0, 0, 255, 255]
        (fun _ _ => true) := by
  refine ⟨by decide, by decide, by decide, by decide, by decide⟩

/-! ## Builder-side helper lemmas -/

theorem le16_length (v : Nat) : (le16 v).length = 2 := rfl

theorem le32_length (v : Nat) : (le32 v).length = 4 := rfl

theorem length_setBytes {buf bs : List Nat} {off : Nat}
    (h : off + bs.length ≤ buf.length) :
    (setBytes buf off bs).length = buf.length := by
  simp only [setBytes, List.length_append, List.length_take, List.length_drop]
  omega

/-- Pointwise description of an in-bounds overwrite. -/
theorem getElem?_setBytes {buf bs : List Nat} {off : Nat}
    (h : off + bs.length ≤ buf.length) (i : Nat) :
    (setBytes buf off bs)[i]? =
      if off ≤ i ∧ i < off + bs.length then bs[i - off]? else buf[i]? := by
  have hto : (buf.take off).length = off := by
    rw [List.length_take]
    omega
  unfold setBytes
  have hab : (List.take off buf ++ bs).length = off + bs.length := by
    rw [List.length_append, hto]
  rcases Nat.lt_or_ge i off with hlt | hge
  · rw [if_neg (by omega),
      List.getElem?_append_left (by rw [hab]; omega),
      List.getElem?_append_left (by rw [hto]; omega),
      List.getElem?_take, if_pos hlt]
  · rcases Nat.lt_or_ge i (off + bs.length) with h2 | h2
    · rw [if_pos (by omega),
        List.getElem?_append_left (by rw [hab]; omega),
        List.getElem?_append_right (by rw [hto]; omega), hto]
    · rw [if_neg (by omega),
        List.getElem?_append_right (by rw [hab]; omega), hab,
        List.getElem?_drop]
      congr 1
      omega

/-- Writes to disjoint ranges commute. -/
theorem setBytes_comm {buf bs1 bs2 : List Nat} {off1 off2 : Nat}
    (hdisj : off1 + bs1.length ≤ off2) (hb : off2 + bs2.length ≤ buf.length) :
    setBytes (setBytes buf off1 bs1) off2 bs2 =
      setBytes (setBytes buf off2 bs2) off1 bs1 := by
  have hb1 : off1 + bs1.length ≤ buf.length := by omega
  have l1 : (setBytes buf off1 bs1).length = buf.length := length_setBytes hb1
  have l2 : (setBytes buf off2 bs2).length = buf.length := length_setBytes hb
  apply List.ext_getElem?
  intro i
  rw [getElem?_setBytes (by rw [l1]; omega) i, getElem?_setBytes hb1 i,
    getElem?_setBytes (by rw [l2]; omega) i, getElem?_setBytes hb i]
  split_ifs <;> first | rfl | omega

/-- A second write over the same range wins. -/
theorem setBytes_last {buf bs1 bs2 : List Nat} {off : Nat}
    (hlen : bs1.length = bs2.length) (hb : off + bs2.length ≤ buf.length) :
    setBytes (setBytes buf off bs1) off bs2 = setBytes buf off bs2 := by
  have hb1 : off + bs1.length ≤ buf.length := by omega
  have l1 : (setBytes buf off bs1).length = buf.length := length_setBytes hb1
  apply List.ext_getElem?
  intro i
  rw [getElem?_setBytes (by rw [l1]; omega) i, getElem?_setBytes hb1 i,
    getElem?_setBytes hb i]
  split_ifs <;> first | rfl | omega

theorem Cursor.seek_of_le {c : Cursor} {n : Nat} (h : n ≤ c.buf.length) :
    c.seek n = .ok ⟨c.buf, n⟩ := by
  unfold Cursor.seek
  rw [if_pos h]

theorem Cursor.seek_of_gt {c : Cursor} {n : Nat} (h : ¬ n ≤ c.buf.length) :
    c.seek n = .error .BufferExhausted := by
  unfold Cursor.seek
  rw [if_neg h]

theorem Cursor.write_bytes_of_le {c : Cursor} {bs : List Nat}
    (h : c.pos + bs.length ≤ c.buf.length) :
    c.write_bytes bs = .ok ⟨setBytes c.buf c.pos bs, c.pos + bs.length⟩ := by
  unfold Cursor.write_bytes
  rw [if_pos h]

theorem Cursor.write_bytes_of_gt {c : Cursor} {bs : List Nat}
    (h : ¬ c.pos + bs.length ≤ c.buf.length) :
    c.write_bytes bs = .error .BufferExhausted := by
  unfold Cursor.write_bytes
  rw [if_neg h]

theorem Cursor.consume_with_prior_of_le {c : Cursor} {n : Nat}
    (h : c.pos + n ≤ c.buf.length) :
    c.consume_with_prior n =
      .ok (c.buf.take c.pos, (c.buf.drop c.pos).take n, ⟨c.buf, c.pos + n⟩) := by
  unfold Cursor.consume_with_prior
  rw [if_pos h]

theorem liftIo_ok {α : Type} (a : α) : liftIo (.ok a) = .ok a := rfl

theorem liftIo_error {α : Type} (e : IoError) :
    liftIo (α := α) (.error e) = .error (Error.ofIo e) := rfl

theorem Containerizer.new_eval {out : List Nat} (h : HEADER_LEN ≤ out.length) :
    Containerizer.new out = .ok ⟨⟨out, HEADER_LEN⟩, false, false⟩ := by
  unfold Containerizer.new
  rw [Cursor.seek_of_le (c := ⟨out, 0⟩) h]
  rfl

theorem with_type_of_le {c : Containerizer} (t : ManifestType)
    (h4 : 4 ≤ c.cursor.buf.length) (hp : c.cursor.pos ≤ c.cursor.buf.length) :
    c.with_type t =
      .ok ⟨⟨setBytes c.cursor.buf TYPE_OFFSET (le16 t.to_wire_value),
        c.cursor.pos⟩, true, c.has_metadata⟩ := by
  obtain ⟨⟨buf, pos⟩, hty, hmd⟩ := c
  dsimp only at h4 hp ⊢
  have hsb : TYPE_OFFSET + (le16 t.to_wire_value).length ≤ buf.length := by
    rw [le16_length]
    simp only [TYPE_OFFSET]
    omega
  have e1 : (⟨buf, pos⟩ : Cursor).seek TYPE_OFFSET = .ok ⟨buf, TYPE_OFFSET⟩ :=
    Cursor.seek_of_le (by simp only [TYPE_OFFSET]; omega)
  have e2 : (⟨buf, TYPE_OFFSET⟩ : Cursor).write_bytes (le16 t.to_wire_value) =
      .ok ⟨setBytes buf TYPE_OFFSET (le16 t.to_wire_value),
        TYPE_OFFSET + (le16 t.to_wire_value).length⟩ :=
    Cursor.write_bytes_of_le hsb
  have e3 : (⟨setBytes buf TYPE_OFFSET (le16 t.to_wire_value),
      TYPE_OFFSET + (le16 t.to_wire_value).length⟩ : Cursor).seek pos =
      .ok ⟨setBytes buf TYPE_OFFSET (le16 t.to_wire_value), pos⟩ :=
    Cursor.seek_of_le (by dsimp only; rw [length_setBytes hsb]; exact hp)
  simp only [Containerizer.with_type, Cursor.consumed_len, e1, liftIo_ok, e2, e3]

theorem with_type_of_gt {c : Containerizer} (t : ManifestType)
    (h : ¬ (4 ≤ c.cursor.buf.length ∧ c.cursor.pos ≤ c.cursor.buf.length)) :
    c.with_type t = .error .OutOfRange := by
  obtain ⟨⟨buf, pos⟩, hty, hmd⟩ := c
  dsimp only at h ⊢
  push_neg at h
  by_cases h4 : 4 ≤ buf.length
  · have hsb : TYPE_OFFSET + (le16 t.to_wire_value).length ≤ buf.length := by
      rw [le16_length]
      simp only [TYPE_OFFSET]
      omega
    have e1 : (⟨buf, pos⟩ : Cursor).seek TYPE_OFFSET = .ok ⟨buf, TYPE_OFFSET⟩ :=
      Cursor.seek_of_le (by simp only [TYPE_OFFSET]; omega)
    have e2 : (⟨buf, TYPE_OFFSET⟩ : Cursor).write_bytes (le16 t.to_wire_value) =
        .ok ⟨setBytes buf TYPE_OFFSET (le16 t.to_wire_value),
          TYPE_OFFSET + (le16 t.to_wire_value).length⟩ :=
      Cursor.write_bytes_of_le hsb
    have e3 : (⟨setBytes buf TYPE_OFFSET (le16 t.to_wire_value),
        TYPE_OFFSET + (le16 t.to_wire_value).length⟩ : Cursor).seek pos =
        .error .BufferExhausted := by
      have hlt := h h4
      exact Cursor.seek_of_gt (by dsimp only; rw [length_setBytes hsb]; omega)
    simp only [Containerizer.with_type, Cursor.consumed_len, e1, liftIo_ok, e2,
      e3, liftIo_error, Error.ofIo]
  · by_cases h2 : TYPE_OFFSET ≤ buf.length
    · have e1 : (⟨buf, pos⟩ : Cursor).seek TYPE_OFFSET = .ok ⟨buf, TYPE_OFFSET⟩ :=
        Cursor.seek_of_le h2
      have e2 : (⟨buf, TYPE_OFFSET⟩ : Cursor).write_bytes (le16 t.to_wire_value) =
          .error .BufferExhausted :=
        Cursor.write_bytes_of_gt
          (by dsimp only; rw [le16_length]; simp only [TYPE_OFFSET] at h2 ⊢; omega)
      simp only [Containerizer.with_type, Cursor.consumed_len, e1, liftIo_ok, e2,
        liftIo_error, Error.ofIo]
    · have e1 : (⟨buf, pos⟩ : Cursor).seek TYPE_OFFSET = .error .BufferExhausted :=
        Cursor.seek_of_gt h2
      simp only [Containerizer.with_type, Cursor.consumed_len, e1, liftIo_error,
        Error.ofIo]

theorem with_metadata_of_le {c : Containerizer} (m : Metadata)
    (h8 : 8 ≤ c.cursor.buf.length) (hp : c.cursor.pos ≤ c.cursor.buf.length) :
    c.with_metadata m =
      .ok ⟨⟨setBytes c.cursor.buf ID_OFFSET (le32 m.version_id),
        c.cursor.pos⟩, c.has_type, true⟩ := by
  obtain ⟨⟨buf, pos⟩, hty, hmd⟩ := c
  dsimp only at h8 hp ⊢
  have hsb : ID_OFFSET + (le32 m.version_id).length ≤ buf.length := by
    rw [le32_length]
    simp only [ID_OFFSET]
    omega
  have e1 : (⟨buf, pos⟩ : Cursor).seek ID_OFFSET = .ok ⟨buf, ID_OFFSET⟩ :=
    Cursor.seek_of_le (by simp only [ID_OFFSET]; omega)
  have e2 : (⟨buf, ID_OFFSET⟩ : Cursor).write_bytes (le32 m.version_id) =
      .ok ⟨setBytes buf ID_OFFSET (le32 m.version_id),
        ID_OFFSET + (le32 m.version_id).length⟩ :=
    Cursor.write_bytes_of_le hsb
  have e3 : (⟨setBytes buf ID_OFFSET (le32 m.version_id),
      ID_OFFSET + (le32 m.version_id).length⟩ : Cursor).seek pos =
      .ok ⟨setBytes buf ID_OFFSET (le32 m.version_id), pos⟩ :=
    Cursor.seek_of_le (by dsimp only; rw [length_setBytes hsb]; exact hp)
  simp only [Containerizer.with_metadata, Cursor.consumed_len, e1, liftIo_ok, e2, e3]

theorem with_metadata_of_gt {c : Containerizer} (m : Metadata)
    (h : ¬ (8 ≤ c.cursor.buf.length ∧ c.cursor.pos ≤ c.cursor.buf.length)) :
    c.with_metadata m = .error .OutOfRange := by
  obtain ⟨⟨buf, pos⟩, hty, hmd⟩ := c
  dsimp only at h ⊢
  push_neg at h
  by_cases h8 : 8 ≤ buf.length
  · have hsb : ID_OFFSET + (le32 m.version_id).length ≤ buf.length := by
      rw [le32_length]
      simp only [ID_OFFSET]
      omega
    have e1 : (⟨buf, pos⟩ : Cursor).seek ID_OFFSET = .ok ⟨buf, ID_OFFSET⟩ :=
      Cursor.seek_of_le (by simp only [ID_OFFSET]; omega)
    have e2 : (⟨buf, ID_OFFSET⟩ : Cursor).write_bytes (le32 m.version_id) =
        .ok ⟨setBytes buf ID_OFFSET (le32 m.version_id),
          ID_OFFSET + (le32 m.version_id).length⟩ :=
      Cursor.write_bytes_of_le hsb
    have e3 : (⟨setBytes buf ID_OFFSET (le32 m.version_id),
        ID_OFFSET + (le32 m.version_id).length⟩ : Cursor).seek pos =
        .error .BufferExhausted := by
      have hlt := h h8
      exact Cursor.seek_of_gt (by dsimp only; rw [length_setBytes hsb]; omega)
    simp only [Containerizer.with_metadata, Cursor.consumed_len, e1, liftIo_ok,
      e2, e3, liftIo_error, Error.ofIo]
  · by_cases h2 : ID_OFFSET ≤ buf.length
    · have e1 : (⟨buf, pos⟩ : Cursor).seek ID_OFFSET = .ok ⟨buf, ID_OFFSET⟩ :=
        Cursor.seek_of_le h2
      have e2 : (⟨buf, ID_OFFSET⟩ : Cursor).write_bytes (le32 m.version_id) =
          .error .BufferExhausted :=
        Cursor.write_bytes_of_gt
          (by dsimp only; rw [le32_length]; simp only [ID_OFFSET] at h2 ⊢; omega)
      simp only [Containerizer.with_metadata, Cursor.consumed_len, e1, liftIo_ok,
        e2, liftIo_error, Error.ofIo]
    · have e1 : (⟨buf, pos⟩ : Cursor).seek ID_OFFSET = .error .BufferExhausted :=
        Cursor.seek_of_gt h2
      simp only [Containerizer.with_metadata, Cursor.consumed_len, e1,
        liftIo_error, Error.ofIo]

/-- Frame of a successful `with_type`: position kept, buffer length kept,
and only the two magic bytes written. -/
theorem with_type_frame {c : Containerizer} (t : ManifestType) (c' : Containerizer)
    (h : c.with_type t = .ok c') :
    c'.cursor.pos = c.cursor.pos ∧
    c'.cursor.buf.length = c.cursor.buf.length ∧
    ∀ i, i ≠ TYPE_OFFSET → i ≠ TYPE_OFFSET + 1 →
      c'.cursor.buf[i]? = c.cursor.buf[i]? := by
  by_cases hc : 4 ≤ c.cursor.buf.length ∧ c.cursor.pos ≤ c.cursor.buf.length
  · rw [with_type_of_le t hc.1 hc.2, Except.ok.injEq] at h
    subst h
    have hb : TYPE_OFFSET + (le16 t.to_wire_value).length ≤ c.cursor.buf.length := by
      rw [le16_length]
      simp only [TYPE_OFFSET]
      omega
    refine ⟨rfl, length_setBytes hb, fun i h2 h3 => ?_⟩
    rw [getElem?_setBytes hb i,
      if_neg (by rw [le16_length]; simp only [TYPE_OFFSET] at h2 h3 ⊢; omega)]
  · rw [with_type_of_gt t hc] at h
    exact absurd h (by simp)

/-- Frame of a successful `with_metadata`: position kept, buffer length
kept, and only the four id bytes written. -/
theorem with_metadata_frame {c : Containerizer} (m : Metadata) (c' : Containerizer)
    (h : c.with_metadata m = .ok c') :
    c'.cursor.pos = c.cursor.pos ∧
    c'.cursor.buf.length = c.cursor.buf.length ∧
    ∀ i, i ≠ ID_OFFSET → i ≠ ID_OFFSET + 1 → i ≠ ID_OFFSET + 2 →
      i ≠ ID_OFFSET + 3 → c'.cursor.buf[i]? = c.cursor.buf[i]? := by
  by_cases hc : 8 ≤ c.cursor.buf.length ∧ c.cursor.pos ≤ c.cursor.buf.length
  · rw [with_metadata_of_le m hc.1 hc.2, Except.ok.injEq] at h
    subst h
    have hb : ID_OFFSET + (le32 m.version_id).length ≤ c.cursor.buf.length := by
      rw [le32_length]
      simp only [ID_OFFSET]
      omega
    refine ⟨rfl, length_setBytes hb, fun i h4 h5 h6 h7 => ?_⟩
    rw [getElem?_setBytes hb i,
      if_neg (by
        rw [le32_length]
        simp only [ID_OFFSET] at h4 h5 h6 h7 ⊢
        omega)]
  · rw [with_metadata_of_gt m hc] at h
    exact absurd h (by simp)

/-- `with_type` and `with_metadata` commute. -/
theorem with_type_metadata_comm (c : Containerizer) (t : ManifestType)
    (m : Metadata) :
    Except.bind (c.with_type t) (fun b => b.with_metadata m) =
      Except.bind (c.with_metadata m) (fun b => b.with_type t) := by
  by_cases hp : c.cursor.pos ≤ c.cursor.buf.length
  · by_cases h8 : 8 ≤ c.cursor.buf.length
    · have hbT : TYPE_OFFSET + (le16 t.to_wire_value).length ≤
          c.cursor.buf.length := by
        rw [le16_length]
        simp only [TYPE_OFFSET]
        omega
      have hbI : ID_OFFSET + (le32 m.version_id).length ≤
          c.cursor.buf.length := by
        rw [le32_length]
        simp only [ID_OFFSET]
        omega
      rw [with_type_of_le t (by omega) hp, with_metadata_of_le m h8 hp]
      simp only [Except.bind]
      rw [with_metadata_of_le m (by dsimp only; rw [length_setBytes hbT]; exact h8)
          (by dsimp only; rw [length_setBytes hbT]; exact hp),
        with_type_of_le t (by dsimp only; rw [length_setBytes hbI]; omega)
          (by dsimp only; rw [length_setBytes hbI]; exact hp)]
      dsimp only
      rw [setBytes_comm
        (by rw [le16_length]; simp only [TYPE_OFFSET, ID_OFFSET]; omega)
        (by rw [le32_length]; simp only [ID_OFFSET]; omega)]
    · by_cases h4 : 4 ≤ c.cursor.buf.length
      · have hbT : TYPE_OFFSET + (le16 t.to_wire_value).length ≤
            c.cursor.buf.length := by
          rw [le16_length]
          simp only [TYPE_OFFSET]
          omega
        rw [with_type_of_le t h4 hp, with_metadata_of_gt m (fun hx => h8 hx.1)]
        simp only [Except.bind]
        rw [with_metadata_of_gt m
          (by dsimp only; rw [length_setBytes hbT]; exact fun hx => h8 hx.1)]
      · rw [with_type_of_gt t (fun hx => h4 hx.1),
          with_metadata_of_gt m (fun hx => h8 hx.1)]
        simp only [Except.bind]
  · rw [with_type_of_gt t (fun hx => hp hx.2),
      with_metadata_of_gt m (fun hx => hp hx.2)]
    simp only [Except.bind]

/-- A repeated `with_type` keeps only the last magic written. -/
theorem with_type_last (c : Containerizer) (t t2 : ManifestType) :
    Except.bind (c.with_type t) (fun b => b.with_type t2) = c.with_type t2 := by
  by_cases hc : 4 ≤ c.cursor.buf.length ∧ c.cursor.pos ≤ c.cursor.buf.length
  · obtain ⟨h4, hp⟩ := hc
    have hbT : TYPE_OFFSET + (le16 t.to_wire_value).length ≤
        c.cursor.buf.length := by
      rw [le16_length]
      simp only [TYPE_OFFSET]
      omega
    have hbT2 : TYPE_OFFSET + (le16 t2.to_wire_value).length ≤
        c.cursor.buf.length := by
      rw [le16_length]
      simp only [TYPE_OFFSET]
      omega
    rw [with_type_of_le t h4 hp]
    simp only [Except.bind]
    rw [with_type_of_le t2 (by dsimp only; rw [length_setBytes hbT]; exact h4)
        (by dsimp only; rw [length_setBytes hbT]; exact hp)]
    dsimp only
    rw [setBytes_last (by rfl) hbT2]
  · rw [with_type_of_gt t hc]
    simp only [Except.bind]

/-- A repeated `with_metadata` keeps only the last id written. -/
theorem with_metadata_last (c : Containerizer) (m m2 : Metadata) :
    Except.bind (c.with_metadata m) (fun b => b.with_metadata m2) =
      c.with_metadata m2 := by
  by_cases hc : 8 ≤ c.cursor.buf.length ∧ c.cursor.pos ≤ c.cursor.buf.length
  · obtain ⟨h8, hp⟩ := hc
    have hbI : ID_OFFSET + (le32 m.version_id).length ≤ c.cursor.buf.length := by
      rw [le32_length]
      simp only [ID_OFFSET]
      omega
    have hbI2 : ID_OFFSET + (le32 m2.version_id).length ≤ c.cursor.buf.length := by
      rw [le32_length]
      simp only [ID_OFFSET]
      omega
    rw [with_metadata_of_le m h8 hp]
    simp only [Except.bind]
    rw [with_metadata_of_le m2 (by dsimp only; rw [length_setBytes hbI]; exact h8)
        (by dsimp only; rw [length_setBytes hbI]; exact hp),
      with_metadata_of_le m2 h8 hp]
    dsimp only
    rw [setBytes_last (by rw [le32_length, le32_length]) hbI2]
  · rw [with_metadata_of_gt m hc, with_metadata_of_gt m2 hc]
    simp only [Except.bind]

/-- C8: each successful `with_type`/`with_metadata` call keeps the
cursor's consumed length (so the write position still marks the end of
the body) and rewrites only its own header field — bytes 2..4 for
`with_type`, bytes 4..8 for `with_metadata`; consequently the two calls
commute and repeating either keeps the last value written. -/
theorem header_patch_frame_props (c : Containerizer) (t t2 : ManifestType)
    (m m2 : Metadata) :
    (∀ c', c.with_type t = .ok c' →
      c'.cursor.pos = c.cursor.pos ∧
      c'.cursor.buf.length = c.cursor.buf.length ∧
      ∀ i, i ≠ TYPE_OFFSET → i ≠ TYPE_OFFSET + 1 →
        c'.cursor.buf[i]? = c.cursor.buf[i]?) ∧
    (∀ c', c.with_metadata m = .ok c' →
      c'.cursor.pos = c.cursor.pos ∧
      c'.cursor.buf.length = c.cursor.buf.length ∧
      ∀ i, i ≠ ID_OFFSET → i ≠ ID_OFFSET + 1 → i ≠ ID_OFFSET + 2 →
        i ≠ ID_OFFSET + 3 → c'.cursor.buf[i]? = c.cursor.buf[i]?) ∧
    (Except.bind (c.with_type t) (fun b => b.with_metadata m) =
      Except.bind (c.with_metadata m) (fun b => b.with_type t)) ∧
    (Except.bind (c.with_type t) (fun b => b.with_type t2) = c.with_type t2) ∧
    (Except.bind (c.with_metadata m) (fun b => b.with_metadata m2) =
      c.with_metadata m2) :=
  ⟨fun c' h => with_type_frame t c' h, fun c' h => with_metadata_frame m c' h,
    with_type_metadata_comm c t m, with_type_last c t t2,
    with_metadata_last c m m2⟩

/-- Instantiation of `header_patch_frame_props`: a `with_type` on a
fresh 12-byte builder keeps the write position at 12. -/
theorem header_patch_frame_props_witness :
    (⟨⟨[0, 0, 14, 218, 0, 0, 0, 0, 0, 0, 0, 0], 12⟩, true, false⟩ :
        Containerizer).cursor.pos =
      (⟨⟨[0, 0, 0, 0, 0, 0, 0, 0, 0, 0, 0, 0], 12⟩, false, false⟩ :
        Containerizer).cursor.pos :=
  ((header_patch_frame_props
      ⟨⟨[0, 0, 0, 0, 0, 0, 0, 0, 0, 0, 0, 0], 12⟩, false, false⟩ .Fpm .Fpm
      ⟨5⟩ ⟨6⟩).1
    ⟨⟨[0, 0, 14, 218, 0, 0, 0, 0, 0, 0, 0, 0], 12⟩, true, false⟩ (by rfl)).1

/-- C7: `Containerizer::sign` rejects every violated precondition with
`OutOfRange` before touching the buffer: a missing `with_type` or
`with_metadata`, an overflowing `consumed_len + pub_len`, a `total_len`
that does not fit a `u16`, or a `sig_len` that does not fit a `u16` all
yield `Err(OutOfRange)` with the output buffer untouched (no signature
or header patch written). -/
theorem sign_out_of_range_on_violated_preconditions (c : Containerizer)
    (s : Signer)
    (h : ¬ (c.has_type = true ∧ c.has_metadata = true) ∨
      c.cursor.consumed_len + s.pubLen > USIZE_MAX ∨
      c.cursor.consumed_len + s.pubLen > 0xffff ∨
      s.pubLen > 0xffff) :
    c.signFull s = (.error .OutOfRange, c.cursor.buf) := by
  simp only [Containerizer.signFull]
  split
  · rfl
  case _ hflags =>
    split
    · rfl
    case _ hof =>
      split
      · rfl
      case _ hrange =>
        exfalso
        rw [not_not, Bool.and_eq_true] at hflags
        rcases h with h | h | h | h
        · exact h hflags
        · exact hof h
        · exact hrange (Or.inl h)
        · exact hrange (Or.inr h)

/-- Instantiation of `sign_out_of_range_on_violated_preconditions` on a
builder with neither has-flag set. -/
theorem sign_out_of_range_witness :
    (⟨⟨[], 0⟩, false, false⟩ : Containerizer).signFull
        ⟨0, fun _ => [], fun _ => false⟩ =
      (.error .OutOfRange, []) :=
  sign_out_of_range_on_violated_preconditions ⟨⟨[], 0⟩, false, false⟩
    ⟨0, fun _ => [], fun _ => false⟩ (.inl (by simp))

theorem take_append_left_of_le {X Y : List Nat} {k : Nat} (h : k ≤ X.length) :
    (X ++ Y).take k = X.take k := by
  rw [List.take_append_eq_append_take, Nat.sub_eq_zero_of_le h, List.take_zero,
    List.append_nil]

theorem take_drop_append_left {X Y : List Nat} {a k : Nat}
    (h : a + k ≤ X.length) :
    ((X ++ Y).drop a).take k = (X.drop a).take k := by
  rw [List.drop_append_eq_append_drop, List.take_append_eq_append_take,
    List.length_drop, Nat.sub_eq_zero_of_le (by omega), List.take_zero,
    List.append_nil]

/-- The overwritten range of `setBytes` reads back as the written bytes. -/
theorem segment_setBytes {buf bs : List Nat} {off : Nat}
    (hb : off + bs.length ≤ buf.length) :
    ((setBytes buf off bs).drop off).take bs.length = bs := by
  apply List.ext_getElem?
  intro i
  rw [List.getElem?_take]
  by_cases hik : i < bs.length
  · rw [if_pos hik, List.getElem?_drop, getElem?_setBytes hb, if_pos (by omega)]
    congr 1
    omega
  · rw [if_neg hik]
    exact (List.getElem?_eq_none (by omega)).symm

/-- A segment disjoint from the overwritten range reads back unchanged. -/
theorem segment_setBytes_out {buf bs : List Nat} {off a k : Nat}
    (hout : a + k ≤ off ∨ off + bs.length ≤ a)
    (hb : off + bs.length ≤ buf.length) :
    ((setBytes buf off bs).drop a).take k = (buf.drop a).take k := by
  apply List.ext_getElem?
  intro i
  rw [List.getElem?_take, List.getElem?_take]
  by_cases hik : i < k
  · rw [if_pos hik, if_pos hik, List.getElem?_drop, List.getElem?_drop,
      getElem?_setBytes hb, if_neg (by omega)]
  · rw [if_neg hik, if_neg hik]

/-- A prefix below the overwritten range reads back unchanged. -/
theorem take_setBytes_out {buf bs : List Nat} {off k : Nat}
    (hk : k ≤ off) (hb : off + bs.length ≤ buf.length) :
    (setBytes buf off bs).take k = buf.take k := by
  have h := segment_setBytes_out (a := 0) (k := k) (Or.inl (by omega)) hb
  rwa [List.drop_zero, List.drop_zero] at h

/-- A write at offset zero is read back by taking its length. -/
theorem take_setBytes_zero {buf bs : List Nat} (hb : bs.length ≤ buf.length) :
    (setBytes buf 0 bs).take bs.length = bs := by
  have h := @segment_setBytes buf bs 0 (by omega)
  rwa [List.drop_zero] at h

theorem Cursor.seek_ok_inv {c : Cursor} {n : Nat} {cur : Cursor}
    (h : c.seek n = .ok cur) : n ≤ c.buf.length ∧ cur = ⟨c.buf, n⟩ := by
  unfold Cursor.seek at h
  split at h
  · rw [Except.ok.injEq] at h
    exact ⟨‹_›, h.symm⟩
  · exact absurd h (by simp)

theorem Cursor.write_bytes_ok_inv {c : Cursor} {bs : List Nat} {cur : Cursor}
    (h : c.write_bytes bs = .ok cur) :
    c.pos + bs.length ≤ c.buf.length ∧
      cur = ⟨setBytes c.buf c.pos bs, c.pos + bs.length⟩ := by
  unfold Cursor.write_bytes at h
  split at h
  · rw [Except.ok.injEq] at h
    exact ⟨‹_›, h.symm⟩
  · exact absurd h (by simp)

theorem Cursor.consume_with_prior_ok_inv {c : Cursor} {n : Nat}
    {out : List Nat × List Nat × Cursor}
    (h : c.consume_with_prior n = .ok out) :
    c.pos + n ≤ c.buf.length ∧
      out = (c.buf.take c.pos, (c.buf.drop c.pos).take n, ⟨c.buf, c.pos + n⟩) := by
  unfold Cursor.consume_with_prior at h
  split at h
  · rw [Except.ok.injEq] at h
    exact ⟨‹_›, h.symm⟩
  · exact absurd h (by simp)

theorem Signer.sign_ok_inv {s : Signer} {msg sigOut sb : List Nat}
    (h : s.sign msg sigOut = .ok sb) :
    s.signFails msg = false ∧ (s.sigOf msg).length = sigOut.length ∧
      sb = s.sigOf msg := by
  unfold Signer.sign at h
  split at h
  · exact absurd h (by simp)
  case _ hcond =>
    push_neg at hcond
    rw [Except.ok.injEq] at h
    exact ⟨Bool.not_eq_true _ ▸ hcond.1, hcond.2, h.symm⟩

/-- C5: after a successful `Containerizer::sign` from any builder state
respecting the documented cursor invariant (`pos ≥ HEADER_LEN`), the
returned slice has length `total_len = consumed_len + sig_len`, carries
`total_len` little-endian at offset 0, `sig_len` at offset 8 and the
fixed `0xFFFF` padding at offsets 10..12; its last `sig_len` bytes are
the signer's signature of the slice's own prefix, and that prefix — the
exact message passed to the signer, of length `total_len − sig_len` —
spans the patched header followed by the untouched body bytes. -/
theorem sign_ok_view (c : Containerizer) (s : Signer) (res : List Nat)
    (hinv : HEADER_LEN ≤ c.cursor.pos)
    (h : c.sign s = .ok res) :
    res.length = c.cursor.consumed_len + s.pubLen ∧
    res.take 2 = le16 (c.cursor.consumed_len + s.pubLen) ∧
    (res.drop SIG_LEN_OFFSET).take 2 = le16 s.pubLen ∧
    (res.drop (SIG_LEN_OFFSET + 2)).take 2 = le16 0xffff ∧
    res.drop c.cursor.consumed_len = s.sigOf (res.take c.cursor.consumed_len) ∧
    (res.drop HEADER_LEN).take (c.cursor.consumed_len - HEADER_LEN) =
      (c.cursor.buf.drop HEADER_LEN).take (c.cursor.consumed_len - HEADER_LEN) := by
  simp only [HEADER_LEN] at hinv
  simp only [Containerizer.sign, Containerizer.signFull, Cursor.consumed_len,
    Cursor.take_consumed_bytes, HEADER_LEN, SIG_LEN_OFFSET, LEN_OFFSET] at h ⊢
  split at h
  · exact absurd h (by simp)
  split at h
  · exact absurd h (by simp)
  split at h
  · exact absurd h (by simp)
  split at h
  · exact absurd h (by simp)
  rename_i cur1 heq1
  obtain ⟨hs1, rfl⟩ := Cursor.seek_ok_inv heq1
  try dsimp only at h
  split at h
  · exact absurd h (by simp)
  rename_i cur2 heq2
  obtain ⟨hw2, rfl⟩ := Cursor.write_bytes_ok_inv heq2
  rw [le16_length] at hw2
  try dsimp only at hw2
  simp only [le16_length] at h
  try dsimp only at h
  have lB1 : (setBytes c.cursor.buf 0 (le16 (c.cursor.pos + s.pubLen))).length =
      c.cursor.buf.length :=
    length_setBytes (by rw [le16_length]; omega)
  split at h
  · exact absurd h (by simp)
  rename_i cur3 heq3
  obtain ⟨hs3, rfl⟩ := Cursor.seek_ok_inv heq3
  try dsimp only at hs3
  rw [lB1] at hs3
  try dsimp only at h
  split at h
  · exact absurd h (by simp)
  rename_i cur4 heq4
  obtain ⟨hw4, rfl⟩ := Cursor.write_bytes_ok_inv heq4
  rw [le16_length] at hw4
  try dsimp only at hw4
  rw [lB1] at hw4
  simp only [le16_length] at h
  try dsimp only at h
  have lB2 : (setBytes (setBytes c.cursor.buf 0 (le16 (c.cursor.pos + s.pubLen)))
      8 (le16 s.pubLen)).length = c.cursor.buf.length := by
    rw [length_setBytes (by rw [le16_length, lB1]; omega), lB1]
  split at h
  · exact absurd h (by simp)
  rename_i cur5 heq5
  obtain ⟨hw5, rfl⟩ := Cursor.write_bytes_ok_inv heq5
  rw [le16_length] at hw5
  try dsimp only at hw5
  rw [lB2] at hw5
  simp only [le16_length] at h
  try dsimp only at h
  have lB3 : (setBytes (setBytes (setBytes c.cursor.buf 0
      (le16 (c.cursor.pos + s.pubLen))) 8 (le16 s.pubLen)) (8 + 2)
      (le16 0xffff)).length = c.cursor.buf.length := by
    rw [length_setBytes (by rw [le16_length, lB2]; omega), lB2]
  split at h
  · exact absurd h (by simp)
  rename_i cur6 heq6
  obtain ⟨hs6, rfl⟩ := Cursor.seek_ok_inv heq6
  try dsimp only at hs6
  rw [lB3] at hs6
  try dsimp only at h
  split at h
  · exact absurd h (by simp)
  rename_i msg sigslot cur7 heq7
  obtain ⟨hc7, hout⟩ := Cursor.consume_with_prior_ok_inv heq7
  rw [Prod.mk.injEq, Prod.mk.injEq] at hout
  obtain ⟨rfl, rfl, rfl⟩ := hout
  try dsimp only at hc7
  rw [lB3] at hc7
  try dsimp only at h
  split at h
  · exact absurd h (by simp)
  rename_i sb heqS
  obtain ⟨hsf, hlen, rfl⟩ := Signer.sign_ok_inv heqS
  rw [List.length_take, List.length_drop] at hlen
  try dsimp only at hlen
  rw [lB3] at hlen
  try dsimp only at h
  rw [Except.ok.injEq] at h
  subst h
  set B := c.cursor.buf with hB
  set pos := c.cursor.pos with hpos
  have hlen' : (s.sigOf ((setBytes (setBytes (setBytes B 0
      (le16 (pos + s.pubLen))) 8 (le16 s.pubLen)) (8 + 2)
      (le16 0xffff)).take pos)).length = s.pubLen := by omega
  set B3 := setBytes (setBytes (setBytes B 0 (le16 (pos + s.pubLen))) 8
    (le16 s.pubLen)) (8 + 2) (le16 0xffff) with hB3
  have hres : (setBytes B3 pos (s.sigOf (B3.take pos))).take (pos + s.pubLen) =
      B3.take pos ++ s.sigOf (B3.take pos) := by
    unfold setBytes
    exact List.take_left' (by
      rw [List.length_append, List.length_take, hlen']
      omega)
  rw [hres]
  have hmlen : (B3.take pos).length = pos := by
    rw [List.length_take]
    omega
  have hbT : 0 + (le16 (pos + s.pubLen)).length ≤ B.length := by
    rw [le16_length]
    omega
  have hbG : 8 + (le16 s.pubLen).length ≤
      (setBytes B 0 (le16 (pos + s.pubLen))).length := by
    rw [le16_length, lB1]
    omega
  have hbP : 8 + 2 + (le16 0xffff).length ≤
      (setBytes (setBytes B 0 (le16 (pos + s.pubLen))) 8
        (le16 s.pubLen)).length := by
    rw [le16_length, lB2]
    omega
  refine ⟨?_, ?_, ?_, ?_, ?_, ?_⟩
  · rw [List.length_append, hmlen, hlen']
  · rw [take_append_left_of_le (by omega), List.take_take,
      min_eq_left (by omega : (2 : Nat) ≤ pos), hB3,
      take_setBytes_out (k := 2) (by omega) hbP,
      take_setBytes_out (k := 2) (by omega) hbG]
    have hzz : (le16 (pos + s.pubLen)).length ≤ B.length := by
      rw [le16_length]
      omega
    exact take_setBytes_zero hzz
  · rw [take_drop_append_left (by omega), List.drop_take, List.take_take,
      min_eq_left (by omega : (2 : Nat) ≤ pos - 8), hB3,
      segment_setBytes_out (Or.inl (by omega)) hbP]
    exact segment_setBytes hbG
  · rw [take_drop_append_left (by omega), List.drop_take, List.take_take,
      min_eq_left (by omega : (2 : Nat) ≤ pos - (8 + 2)), hB3]
    exact segment_setBytes hbP
  · rw [List.drop_left' hmlen, List.take_left' hmlen]
  · rw [take_drop_append_left (by omega), List.drop_take, List.take_take,
      min_self, hB3,
      segment_setBytes_out (Or.inr (by rw [le16_length] <;> omega)) hbP,
      segment_setBytes_out (Or.inr (by rw [le16_length] <;> omega)) hbG,
      segment_setBytes_out (Or.inr (by rw [le16_length] <;> omega)) hbT]

/-- Instantiation of `sign_ok_view`: signing a one-byte body in a
15-byte buffer yields a 15-byte container. -/
theorem sign_ok_view_witness :
    ([15, 0, 9, 9, 9, 9, 9, 9, 2, 0, 255, 255, 7, 1, 2] : List Nat).length =
      (⟨⟨[9, 9, 9, 9, 9, 9, 9, 9, 9, 9, 9, 9, 7, 0, 0], 13⟩, true, true⟩ :
        Containerizer).cursor.consumed_len +
        (⟨2, fun _ => [1, 2], fun _ => false⟩ : Signer).pubLen :=
  (sign_ok_view
      ⟨⟨[9, 9, 9, 9, 9, 9, 9, 9, 9, 9, 9, 9, 7, 0, 0], 13⟩, true, true⟩
      ⟨2, fun _ => [1, 2], fun _ => false⟩
      [15, 0, 9, 9, 9, 9, 9, 9, 2, 0, 255, 255, 7, 1, 2]
      (by decide) (by rfl)).1

/-- Forward evaluation of `Containerizer::sign` when every precondition
holds and the signer is a functioning deterministic signer. -/
theorem sign_of_preconditions {c : Containerizer} {s : Signer}
    (hty : c.has_type = true) (hmd : c.has_metadata = true)
    (hpos : HEADER_LEN ≤ c.cursor.pos)
    (hfit : c.cursor.pos + s.pubLen ≤ 0xffff)
    (hbuf : c.cursor.pos + s.pubLen ≤ c.cursor.buf.length)
    (hslen : ∀ m, (s.sigOf m).length = s.pubLen)
    (hsf : ∀ m, s.signFails m = false) :
    c.sign s =
      .ok ((setBytes (setBytes (setBytes c.cursor.buf 0
            (le16 (c.cursor.pos + s.pubLen))) 8 (le16 s.pubLen)) 10
            (le16 0xffff)).take c.cursor.pos ++
        s.sigOf ((setBytes (setBytes (setBytes c.cursor.buf 0
            (le16 (c.cursor.pos + s.pubLen))) 8 (le16 s.pubLen)) 10
            (le16 0xffff)).take c.cursor.pos)) := by
  obtain ⟨⟨buf, pos⟩, ht, hm⟩ := c
  dsimp only at *
  subst hty
  subst hmd
  simp only [HEADER_LEN] at hpos
  have l1 : (setBytes buf 0 (le16 (pos + s.pubLen))).length = buf.length :=
    length_setBytes (by rw [le16_length]; omega)
  have l2 : (setBytes (setBytes buf 0 (le16 (pos + s.pubLen))) 8
      (le16 s.pubLen)).length = buf.length := by
    rw [length_setBytes (by rw [le16_length, l1]; omega), l1]
  have l3 : (setBytes (setBytes (setBytes buf 0 (le16 (pos + s.pubLen))) 8
      (le16 s.pubLen)) 10 (le16 0xffff)).length = buf.length := by
    rw [length_setBytes (by rw [le16_length, l2]; omega), l2]
  have e1 : (⟨buf, pos⟩ : Cursor).seek 0 = .ok ⟨buf, 0⟩ :=
    Cursor.seek_of_le (by omega)
  have e2 : (⟨buf, 0⟩ : Cursor).write_bytes (le16 (pos + s.pubLen)) =
      .ok ⟨setBytes buf 0 (le16 (pos + s.pubLen)), 2⟩ :=
    Cursor.write_bytes_of_le (by dsimp only; rw [le16_length]; omega)
  have e3 : (⟨setBytes buf 0 (le16 (pos + s.pubLen)), 2⟩ : Cursor).seek 8 =
      .ok ⟨setBytes buf 0 (le16 (pos + s.pubLen)), 8⟩ :=
    Cursor.seek_of_le (by dsimp only; rw [l1]; omega)
  have e4 : (⟨setBytes buf 0 (le16 (pos + s.pubLen)), 8⟩ : Cursor).write_bytes
        (le16 s.pubLen) =
      .ok ⟨setBytes (setBytes buf 0 (le16 (pos + s.pubLen))) 8 (le16 s.pubLen),
        10⟩ :=
    Cursor.write_bytes_of_le (by dsimp only; rw [le16_length, l1]; omega)
  have e5 : (⟨setBytes (setBytes buf 0 (le16 (pos + s.pubLen))) 8
        (le16 s.pubLen), 10⟩ : Cursor).write_bytes (le16 0xffff) =
      .ok ⟨setBytes (setBytes (setBytes buf 0 (le16 (pos + s.pubLen))) 8
        (le16 s.pubLen)) 10 (le16 0xffff), 12⟩ :=
    Cursor.write_bytes_of_le (by dsimp only; rw [le16_length, l2]; omega)
  have e6 : (⟨setBytes (setBytes (setBytes buf 0 (le16 (pos + s.pubLen))) 8
        (le16 s.pubLen)) 10 (le16 0xffff), 12⟩ : Cursor).seek pos =
      .ok ⟨setBytes (setBytes (setBytes buf 0 (le16 (pos + s.pubLen))) 8
        (le16 s.pubLen)) 10 (le16 0xffff), pos⟩ :=
    Cursor.seek_of_le (by dsimp only; rw [l3]; omega)
  have e7 : (⟨setBytes (setBytes (setBytes buf 0 (le16 (pos + s.pubLen))) 8
        (le16 s.pubLen)) 10 (le16 0xffff), pos⟩ : Cursor).consume_with_prior
        s.pubLen =
      .ok ((setBytes (setBytes (setBytes buf 0 (le16 (pos + s.pubLen))) 8
          (le16 s.pubLen)) 10 (le16 0xffff)).take pos,
        ((setBytes (setBytes (setBytes buf 0 (le16 (pos + s.pubLen))) 8
          (le16 s.pubLen)) 10 (le16 0xffff)).drop pos).take s.pubLen,
        ⟨setBytes (setBytes (setBytes buf 0 (le16 (pos + s.pubLen))) 8
          (le16 s.pubLen)) 10 (le16 0xffff), pos + s.pubLen⟩) :=
    Cursor.consume_with_prior_of_le (by dsimp only; rw [l3]; omega)
  have hsl : (((setBytes (setBytes (setBytes buf 0 (le16 (pos + s.pubLen))) 8
      (le16 s.pubLen)) 10 (le16 0xffff)).drop pos).take s.pubLen).length =
      s.pubLen := by
    rw [List.length_take, List.length_drop, l3]
    omega
  have eS : s.sign ((setBytes (setBytes (setBytes buf 0
        (le16 (pos + s.pubLen))) 8 (le16 s.pubLen)) 10 (le16 0xffff)).take pos)
        (((setBytes (setBytes (setBytes buf 0 (le16 (pos + s.pubLen))) 8
          (le16 s.pubLen)) 10 (le16 0xffff)).drop pos).take s.pubLen) =
      .ok (s.sigOf ((setBytes (setBytes (setBytes buf 0
        (le16 (pos + s.pubLen))) 8 (le16 s.pubLen)) 10
        (le16 0xffff)).take pos)) := by
    unfold Signer.sign
    rw [if_neg (by simp [hsf, hslen, hsl])]
  simp only [Containerizer.sign, Containerizer.signFull, Cursor.consumed_len,
    Cursor.take_consumed_bytes, LEN_OFFSET, SIG_LEN_OFFSET]
  rw [if_neg (by simp), if_neg (by simp only [USIZE_MAX]; omega),
    if_neg (by omega)]
  simp only [e1, e2, e3, e4, e5, e6, e7, eS]
  rw [Except.ok.injEq,
    show setBytes (setBytes (setBytes (setBytes buf 0 (le16 (pos + s.pubLen)))
        8 (le16 s.pubLen)) 10 (le16 0xffff)) pos
        (s.sigOf ((setBytes (setBytes (setBytes buf 0 (le16 (pos + s.pubLen)))
          8 (le16 s.pubLen)) 10 (le16 0xffff)).take pos)) =
      ((setBytes (setBytes (setBytes buf 0 (le16 (pos + s.pubLen))) 8
        (le16 s.pubLen)) 10 (le16 0xffff)).take pos ++
        s.sigOf ((setBytes (setBytes (setBytes buf 0 (le16 (pos + s.pubLen)))
          8 (le16 s.pubLen)) 10 (le16 0xffff)).take pos)) ++
      (setBytes (setBytes (setBytes buf 0 (le16 (pos + s.pubLen))) 8
        (le16 s.pubLen)) 10 (le16 0xffff)).drop (pos +
        (s.sigOf ((setBytes (setBytes (setBytes buf 0 (le16 (pos + s.pubLen)))
          8 (le16 s.pubLen)) 10 (le16 0xffff)).take pos)).length)
    from rfl]
  exact List.take_left' (by
    rw [List.length_append, List.length_take, hslen]
    omega)

theorem append_congr {a b c d : List Nat} (h1 : a = c) (h2 : b = d) :
    a ++ b = c ++ d := by
  rw [h1, h2]

set_option maxHeartbeats 1600000 in
/-- The prefix a full build pipeline leaves in the output buffer: the six
in-place writes assemble exactly the wire header followed by the body. -/
theorem built_prefix_eq (out body : List Nat) (wv id total sl : Nat)
    (hout : HEADER_LEN + body.length ≤ out.length) :
    (setBytes (setBytes (setBytes (setBytes (setBytes (setBytes out
        TYPE_OFFSET (le16 wv)) ID_OFFSET (le32 id)) HEADER_LEN body)
        0 (le16 total)) 8 (le16 sl)) 10 (le16 0xffff)).take
        (HEADER_LEN + body.length) =
      le16 total ++ (le16 wv ++ (le32 id ++ (le16 sl ++
        (le16 0xffff ++ body)))) := by
  simp only [TYPE_OFFSET, ID_OFFSET, HEADER_LEN] at hout ⊢
  set S1 := setBytes out 2 (le16 wv) with hS1
  set S2 := setBytes S1 4 (le32 id) with hS2
  set S3 := setBytes S2 (2 + 2 + 4 + 2 + 2) body with hS3
  set S4 := setBytes S3 0 (le16 total) with hS4
  set S5 := setBytes S4 8 (le16 sl) with hS5
  set S6 := setBytes S5 10 (le16 0xffff) with hS6
  have bT : 2 + (le16 wv).length ≤ out.length := by
    rw [le16_length]
    omega
  have lt : S1.length = out.length := length_setBytes bT
  have bI : 4 + (le32 id).length ≤ S1.length := by
    rw [le32_length, lt]
    omega
  have li : S2.length = out.length := by rw [hS2, length_setBytes bI, lt]
  have bB : 2 + 2 + 4 + 2 + 2 + body.length ≤ S2.length := by
    rw [li]
    omega
  have lb : S3.length = out.length := by rw [hS3, length_setBytes bB, li]
  have bL : 0 + (le16 total).length ≤ S3.length := by
    rw [le16_length, lb]
    omega
  have lL : S4.length = out.length := by rw [hS4, length_setBytes bL, lb]
  have bG : 8 + (le16 sl).length ≤ S4.length := by
    rw [le16_length, lL]
    omega
  have lG : S5.length = out.length := by rw [hS5, length_setBytes bG, lL]
  have bP : 10 + (le16 0xffff).length ≤ S5.length := by
    rw [le16_length, lG]
    omega
  rw [show 2 + 2 + 4 + 2 + 2 + body.length =
      2 + (2 + (4 + (2 + (2 + body.length)))) from by omega]
  rw [List.take_add, List.take_add, List.take_add, List.take_add,
    List.take_add]
  simp only [List.drop_drop]
  refine append_congr ?_ (append_congr ?_ (append_congr ?_ (append_congr ?_
    (append_congr ?_ ?_))))
  · rw [hS6, take_setBytes_out (k := 2) (by omega) bP,
      hS5, take_setBytes_out (k := 2) (by omega) bG]
    have hzz : (le16 total).length ≤ S3.length := by
      rw [le16_length, lb]
      omega
    exact take_setBytes_zero hzz
  · rw [hS6, segment_setBytes_out (Or.inl (by omega)) bP,
      hS5, segment_setBytes_out (Or.inl (by omega)) bG,
      hS4, segment_setBytes_out (Or.inr (by rw [le16_length] <;> omega)) bL,
      hS3, segment_setBytes_out (Or.inl (by omega)) bB,
      hS2, segment_setBytes_out (Or.inl (by omega)) bI,
      hS1]
    exact segment_setBytes bT
  · rw [hS6, segment_setBytes_out (Or.inl (by omega)) bP,
      hS5, segment_setBytes_out (Or.inl (by omega)) bG,
      hS4, segment_setBytes_out (Or.inr (by rw [le16_length] <;> omega)) bL,
      hS3, segment_setBytes_out (Or.inl (by omega)) bB,
      hS2]
    exact segment_setBytes bI
  · rw [hS6, segment_setBytes_out (Or.inl (by omega)) bP, hS5]
    exact segment_setBytes bG
  · rw [hS6]
    exact segment_setBytes bP
  · rw [hS6, segment_setBytes_out (Or.inr (by rw [le16_length] <;> omega)) bP,
      hS5, segment_setBytes_out (Or.inr (by rw [le16_length] <;> omega)) bG,
      hS4, segment_setBytes_out (Or.inr (by rw [le16_length] <;> omega)) bL,
      hS3]
    exact segment_setBytes bB

/-- The registry decodes what it encodes. -/
theorem from_wire_to_wire (t : ManifestType) :
    ManifestType.from_wire_value t.to_wire_value = some t := by
  cases t
  rfl

/-- Parsing a freshly framed container — header, body and signature laid
out as the builder leaves them — succeeds and recovers the fields. -/
theorem parse_built (tag : ManifestType) (wv id total : Nat)
    (body sig : List Nat) (verify : List Nat → List Nat → Bool)
    (hwv : ManifestType.from_wire_value wv = some tag)
    (hwv16 : wv < 65536)
    (hid : id < 4294967296)
    (htot : total = HEADER_LEN + body.length + sig.length)
    (hfit : total ≤ 0xffff)
    (hver : verify sig (le16 total ++ (le16 wv ++ (le32 id ++
      (le16 sig.length ++ (le16 0xffff ++ body))))) = true) :
    parse_and_verify true ((le16 total ++ (le16 wv ++ (le32 id ++
        (le16 sig.length ++ (le16 0xffff ++ body))))) ++ sig) verify =
      .ok ⟨tag, ⟨id⟩, body⟩ := by
  simp only [HEADER_LEN] at htot
  set M := le16 total ++ (le16 wv ++ (le32 id ++ (le16 sig.length ++
    (le16 0xffff ++ body)))) with hM
  have hMlen : M.length = 2 + 2 + 4 + 2 + 2 + body.length := by
    rw [hM]
    simp [le16, le32, List.length_append]
    omega
  have hblen : (M ++ sig).length = total := by
    rw [List.length_append, hMlen]
    omega
  have hbytes : M ++ sig =
      total % 256 :: total / 256 % 256 :: wv % 256 :: wv / 256 % 256 ::
      id % 256 :: id / 256 % 256 :: id / 65536 % 256 ::
      id / 16777216 % 256 :: sig.length % 256 :: sig.length / 256 % 256 ::
      255 :: 255 :: (body ++ sig) := by
    rw [hM]
    simp [le16, le32]
  have hr0 : readLeU16 (M ++ sig) LEN_OFFSET = total := by
    rw [hbytes]
    show total % 256 + 256 * (total / 256 % 256) = total
    omega
  have hr2 : readLeU16 (M ++ sig) TYPE_OFFSET = wv := by
    rw [hbytes]
    show wv % 256 + 256 * (wv / 256 % 256) = wv
    omega
  have hr4 : readLeU32 (M ++ sig) ID_OFFSET = id := by
    rw [hbytes]
    show id % 256 + 256 * (id / 256 % 256) + 65536 * (id / 65536 % 256) +
      16777216 * (id / 16777216 % 256) = id
    omega
  have hr8 : readLeU16 (M ++ sig) SIG_LEN_OFFSET = sig.length := by
    rw [hbytes]
    show sig.length % 256 + 256 * (sig.length / 256 % 256) = sig.length
    omega
  have hdrop : ((M ++ sig).take total).drop HEADER_LEN = body ++ sig := by
    rw [← hblen, List.take_length, hbytes]
    rfl
  have hsigned : (M ++ sig).take (total - sig.length) = M := by
    rw [show total - sig.length = 2 + 2 + 4 + 2 + 2 + body.length from by omega]
    exact List.take_left' hMlen
  have hsig2 : (body ++ sig).drop ((body ++ sig).length - sig.length) = sig := by
    rw [List.length_append,
      show body.length + sig.length - sig.length = body.length from by omega]
    exact List.drop_left body sig
  have hbody : (body ++ sig).take ((body ++ sig).length - sig.length) = body := by
    rw [List.length_append,
      show body.length + sig.length - sig.length = body.length from by omega]
    exact List.take_left body sig
  have c1 : ¬ (HEADER_LEN > (M ++ sig).length) := by
    rw [hblen]
    simp only [HEADER_LEN]
    omega
  have c2 : ¬ (total > (M ++ sig).length) := by
    rw [hblen]
    omega
  have c3 : ¬ (HEADER_LEN > total) := by
    simp only [HEADER_LEN]
    omega
  have c4 : ¬ (sig.length > (body ++ sig).length) := by
    rw [List.length_append]
    omega
  have c5 : ¬ (sig.length > total) := by omega
  simp only [parse_and_verify, hr0, hr2, hr4, hr8]
  rw [if_neg (by simp), if_neg c1, if_neg c2, if_neg c3, hdrop, if_neg c4,
    if_neg c5, hsig2, hsigned, hbody, if_pos hver, hwv]

theorem Containerizer.write_bytes_eval {c : Containerizer} {bs : List Nat}
    (h : c.cursor.pos + bs.length ≤ c.cursor.buf.length) :
    c.write_bytes bs =
      .ok ⟨⟨setBytes c.cursor.buf c.cursor.pos bs, c.cursor.pos + bs.length⟩,
        c.has_type, c.has_metadata⟩ := by
  obtain ⟨⟨buf, pos⟩, ht, hm⟩ := c
  dsimp only at h ⊢
  have e : Cursor.write_bytes ⟨buf, pos⟩ bs =
      .ok ⟨setBytes buf pos bs, pos + bs.length⟩ :=
    Cursor.write_bytes_of_le h
  simp only [Containerizer.write_bytes, e]

/-- C3: round-trip identity. Building a container with
`Containerizer::new`, `with_type`, `with_metadata`, `write_bytes` and
`sign`, then running `parse_and_verify` on the returned bytes, succeeds
and recovers the manifest type, version id and body — for every
deterministic signer whose signatures the verifying engine accepts,
whenever the output buffer is large enough and
`HEADER_LEN + body.len() + sig_len` fits in a `u16`. -/
theorem build_then_parse_roundtrip (tag : ManifestType) (id : Nat)
    (out body : List Nat) (s : Signer)
    (verify : List Nat → List Nat → Bool)
    (hid : id < 4294967296)
    (hout : HEADER_LEN + body.length + s.pubLen ≤ out.length)
    (hfit : HEADER_LEN + body.length + s.pubLen ≤ 0xffff)
    (hslen : ∀ m, (s.sigOf m).length = s.pubLen)
    (hsf : ∀ m, s.signFails m = false)
    (haccept : ∀ m, verify (s.sigOf m) m = true) :
    ∃ bytes,
      Except.bind (Except.bind (Except.bind (Containerizer.new out)
          (fun b => b.with_type tag)) (fun b => b.with_metadata ⟨id⟩))
        (fun b => Except.bind (liftIo (b.write_bytes body))
          (fun b => b.sign s)) = .ok bytes ∧
      parse_and_verify true bytes verify = .ok ⟨tag, ⟨id⟩, body⟩ := by
  have houtN : 12 + body.length + s.pubLen ≤ out.length := by
    simpa only [HEADER_LEN] using hout
  have hw16 : tag.to_wire_value < 65536 := by
    cases tag
    decide
  have e0 : Containerizer.new out = .ok ⟨⟨out, HEADER_LEN⟩, false, false⟩ :=
    Containerizer.new_eval (by simp only [HEADER_LEN]; omega)
  have l1 : (setBytes out TYPE_OFFSET (le16 tag.to_wire_value)).length =
      out.length :=
    length_setBytes (by rw [le16_length]; simp only [TYPE_OFFSET]; omega)
  have e1 : (⟨⟨out, HEADER_LEN⟩, false, false⟩ : Containerizer).with_type tag =
      .ok ⟨⟨setBytes out TYPE_OFFSET (le16 tag.to_wire_value), HEADER_LEN⟩,
        true, false⟩ :=
    with_type_of_le tag (by show 4 ≤ out.length; omega)
      (by show HEADER_LEN ≤ out.length; simp only [HEADER_LEN]; omega)
  have l2 : (setBytes (setBytes out TYPE_OFFSET (le16 tag.to_wire_value))
      ID_OFFSET (le32 id)).length = out.length := by
    rw [length_setBytes
      (by rw [le32_length, l1]; simp only [ID_OFFSET]; omega), l1]
  have e2 : (⟨⟨setBytes out TYPE_OFFSET (le16 tag.to_wire_value), HEADER_LEN⟩,
        true, false⟩ : Containerizer).with_metadata ⟨id⟩ =
      .ok ⟨⟨setBytes (setBytes out TYPE_OFFSET (le16 tag.to_wire_value))
        ID_OFFSET (le32 id), HEADER_LEN⟩, true, true⟩ :=
    with_metadata_of_le ⟨id⟩
      (by
        show 8 ≤ (setBytes out TYPE_OFFSET (le16 tag.to_wire_value)).length
        rw [l1]
        omega)
      (by
        show HEADER_LEN ≤ (setBytes out TYPE_OFFSET
          (le16 tag.to_wire_value)).length
        rw [l1]
        simp only [HEADER_LEN]
        omega)
  have l3 : (setBytes (setBytes (setBytes out TYPE_OFFSET
      (le16 tag.to_wire_value)) ID_OFFSET (le32 id)) HEADER_LEN body).length =
      out.length := by
    rw [length_setBytes (by rw [l2]; simp only [HEADER_LEN]; omega), l2]
  have e3 : (⟨⟨setBytes (setBytes out TYPE_OFFSET (le16 tag.to_wire_value))
        ID_OFFSET (le32 id), HEADER_LEN⟩, true, true⟩ :
        Containerizer).write_bytes body =
      .ok ⟨⟨setBytes (setBytes (setBytes out TYPE_OFFSET
        (le16 tag.to_wire_value)) ID_OFFSET (le32 id)) HEADER_LEN body,
        HEADER_LEN + body.length⟩, true, true⟩ :=
    Containerizer.write_bytes_eval (by
      show HEADER_LEN + body.length ≤ (setBytes (setBytes out TYPE_OFFSET
        (le16 tag.to_wire_value)) ID_OFFSET (le32 id)).length
      rw [l2]
      simp only [HEADER_LEN]
      omega)
  have e4 : (⟨⟨setBytes (setBytes (setBytes out TYPE_OFFSET
        (le16 tag.to_wire_value)) ID_OFFSET (le32 id)) HEADER_LEN body,
        HEADER_LEN + body.length⟩, true, true⟩ : Containerizer).sign s =
      .ok ((setBytes (setBytes (setBytes (setBytes (setBytes (setBytes out
            TYPE_OFFSET (le16 tag.to_wire_value)) ID_OFFSET (le32 id))
            HEADER_LEN body) 0 (le16 (HEADER_LEN + body.length + s.pubLen)))
            8 (le16 s.pubLen)) 10 (le16 0xffff)).take
            (HEADER_LEN + body.length) ++
        s.sigOf ((setBytes (setBytes (setBytes (setBytes (setBytes
            (setBytes out TYPE_OFFSET (le16 tag.to_wire_value)) ID_OFFSET
            (le32 id)) HEADER_LEN body) 0
            (le16 (HEADER_LEN + body.length + s.pubLen))) 8 (le16 s.pubLen))
            10 (le16 0xffff)).take (HEADER_LEN + body.length))) :=
    sign_of_preconditions rfl rfl
      (by show HEADER_LEN ≤ HEADER_LEN + body.length; omega)
      (by show HEADER_LEN + body.length + s.pubLen ≤ 0xffff; exact hfit)
      (by
        show HEADER_LEN + body.length + s.pubLen ≤ (setBytes (setBytes
          (setBytes out TYPE_OFFSET (le16 tag.to_wire_value)) ID_OFFSET
          (le32 id)) HEADER_LEN body).length
        rw [l3]
        simp only [HEADER_LEN]
        omega)
      hslen hsf
  have hQ := built_prefix_eq out body tag.to_wire_value id
    (HEADER_LEN + body.length + s.pubLen) s.pubLen
    (by simp only [HEADER_LEN]; omega)
  have hsl : (s.sigOf (le16 (HEADER_LEN + body.length + s.pubLen) ++
      (le16 tag.to_wire_value ++ (le32 id ++ (le16 s.pubLen ++
      (le16 0xffff ++ body)))))).length = s.pubLen := hslen _
  have hp := parse_built tag tag.to_wire_value id
    (HEADER_LEN + body.length + s.pubLen) body
    (s.sigOf (le16 (HEADER_LEN + body.length + s.pubLen) ++
      (le16 tag.to_wire_value ++ (le32 id ++ (le16 s.pubLen ++
      (le16 0xffff ++ body)))))) verify
    (from_wire_to_wire tag) hw16 hid (by rw [hsl]) hfit
    (by rw [hsl]; exact haccept _)
  rw [hsl] at hp
  refine ⟨le16 (HEADER_LEN + body.length + s.pubLen) ++
    (le16 tag.to_wire_value ++ (le32 id ++ (le16 s.pubLen ++
    (le16 0xffff ++ body)))) ++
    s.sigOf (le16 (HEADER_LEN + body.length + s.pubLen) ++
    (le16 tag.to_wire_value ++ (le32 id ++ (le16 s.pubLen ++
    (le16 0xffff ++ body))))), ?_, ?_⟩
  · simp only [Except.bind, e0, e1, e2, e3, liftIo_ok, e4]
    rw [hQ]
  · exact hp

/-- Concrete instance of the round-trip: tag `Fpm`, version id 1, body
`[7]`, a one-byte signer, a 14-byte output buffer. -/
theorem build_then_parse_roundtrip_witness :
    (1 < 4294967296 ∧
     HEADER_LEN + [7].length + (1 : Nat) ≤ (List.replicate 14 0).length ∧
     HEADER_LEN + [7].length + (1 : Nat) ≤ 0xffff ∧
     (∀ m, ((⟨1, fun _ => [9], fun _ => false⟩ : Signer).sigOf m).length = 1) ∧
     (∀ m, (⟨1, fun _ => [9], fun _ => false⟩ : Signer).signFails m = false) ∧
     (∀ m, (fun sg _ => sg == [9] : List Nat → List Nat → Bool)
       ((⟨1, fun _ => [9], fun _ => false⟩ : Signer).sigOf m) m = true)) ∧
    (∃ bytes,
      Except.bind (Except.bind (Except.bind
          (Containerizer.new (List.replicate 14 0))
          (fun b => b.with_type .Fpm)) (fun b => b.with_metadata ⟨1⟩))
        (fun b => Except.bind (liftIo (b.write_bytes [7]))
          (fun b => b.sign ⟨1, fun _ => [9], fun _ => false⟩)) =
        .ok bytes ∧
      parse_and_verify true bytes (fun sg _ => sg == [9]) =
        .ok ⟨.Fpm, ⟨1⟩, [7]⟩) :=
  ⟨⟨by decide, by decide, by decide, fun m => rfl, fun m => rfl,
    fun m => rfl⟩,
    build_then_parse_roundtrip .Fpm 1 (List.replicate 14 0) [7]
      ⟨1, fun _ => [9], fun _ => false⟩ (fun sg _ => sg == [9])
      (by decide) (by decide) (by decide) (fun m => rfl) (fun m => rfl)
      (fun m => rfl)⟩

end Manticore
